import Mathlib

/-!
Verification development for the Kanban multi-agent orchestrator
(spec-server, task-runner, board CRUD handlers).

JavaScript strings are modelled as `List Char`; machine details that the
claims do not touch (floating point numbers, unicode case folding beyond
ASCII, the event loop) are modelled by the restrictions noted at each
definition.  JSON values are modelled by the `Json` inductive below with
integer numbers only: every number this program ever writes into a meta
block is an integer, and `JSON.stringify` prints integers exactly.
-/

/-- JavaScript strings, modelled as lists of characters. -/
abbrev Str := List Char

/-- Turn a Lean string literal into the model type. -/
def str (s : String) : Str := s.data

/-- The whitespace class used by `trim`, `\s` and JSON: space, newline,
tab, carriage return (the rarer members of the class never appear in the
strings this program manipulates). -/
def isJsWs (c : Char) : Bool :=
  c.toNat = 32 || c.toNat = 10 || c.toNat = 9 || c.toNat = 13

/-- ASCII digit test. -/
def isDigitC (c : Char) : Bool := 48 ≤ c.toNat && c.toNat ≤ 57

/-- `pat.leadsWith s`: `pat` is a leading piece of `s` (JS `startsWith`). -/
def leadsWith : Str → Str → Bool
  | [], _ => true
  | _ :: _, [] => false
  | p :: ps, c :: cs => p = c && leadsWith ps cs

/-- JS `String.prototype.indexOf`: position of the first occurrence of
`pat` in `s`, or `none` for JS's `-1`. -/
def jsIndexOf (pat : Str) : Str → Option Nat
  | [] => if pat = [] then some 0 else none
  | c :: rest =>
    if leadsWith pat (c :: rest) then some 0
    else (jsIndexOf pat rest).map (· + 1)

/-- JS `String.prototype.includes`. -/
def jsIncludes (s pat : Str) : Bool := (jsIndexOf pat s).isSome

/-- JS `trimStart`. -/
def jsTrimStart (s : Str) : Str := s.dropWhile isJsWs

/-- JS `trimEnd`. -/
def jsTrimEnd (s : Str) : Str := (s.reverse.dropWhile isJsWs).reverse

/-- JS `String.prototype.trim`. -/
def jsTrim (s : Str) : Str := jsTrimEnd (jsTrimStart s)

/-- JS `toLowerCase`, ASCII fragment. -/
def jsToLower (s : Str) : Str := s.map Char.toLower

/-- JSON values.  Numbers are restricted to integers: the program only
ever serializes integer counters and the claims never involve fractions. -/
inductive Json where
  | null
  | bool (b : Bool)
  | num (n : Int)
  | str (s : Str)
  | arr (elems : List Json)
  | obj (fields : List (Str × Json))

/-- JS truthiness of a JSON value (`null`, `false`, `0` and `""` are the
falsy ones; arrays and objects are always truthy). -/
def Json.truthy : Json → Bool
  | .null => false
  | .bool b => b
  | .num n => n ≠ 0
  | .str s => s ≠ []
  | .arr _ => true
  | .obj _ => true

/-- First-match association lookup.  A JS object holds each key once, so
on the values this program builds first-match and last-match agree. -/
def lookupField : List (Str × Json) → Str → Option Json
  | [], _ => none
  | (k, v) :: fs, key => if k = key then some v else lookupField fs key

/-- JS property write `o[k] = v`: updates the value in place if the key
exists (key order is preserved), appends the key otherwise. -/
def setField : List (Str × Json) → Str → Json → List (Str × Json)
  | [], key, v => [(key, v)]
  | (k, w) :: fs, key, v =>
    if k = key then (k, v) :: fs else (k, w) :: setField fs key v

/-- JS property read `o.k` on an arbitrary JSON value: `undefined`
(modelled `none`) unless the value is an object holding the key. -/
def Json.getField : Json → Str → Option Json
  | .obj fs, key => lookupField fs key
  | _, _ => none

/-! ### JSON.stringify

The compact printer: no whitespace, integers in decimal, strings quoted
with `\"`, `\\`, `\n`, `\t`, `\r` short escapes and `\u00XX` for the
remaining control characters.  This is exactly the output shape of
`JSON.stringify` on the values of the `Json` type. -/

/-- Lower-case hexadecimal digit. -/
def hexDigitChar (n : Nat) : Char :=
  if n < 10 then Char.ofNat (48 + n) else Char.ofNat (87 + n)

/-- Escape one character of a JSON string body. -/
def escChar (c : Char) : Str :=
  if c = '"' then ['\\', '"']
  else if c = '\\' then ['\\', '\\']
  else if c = '\n' then ['\\', 'n']
  else if c = '\t' then ['\\', 't']
  else if c = '\r' then ['\\', 'r']
  else if c.toNat < 32 then
    ['\\', 'u', '0', '0', hexDigitChar (c.toNat / 16), hexDigitChar (c.toNat % 16)]
  else [c]

/-- Escape a JSON string body. -/
def escapeStr : Str → Str
  | [] => []
  | c :: rest => escChar c ++ escapeStr rest

/-- Decimal digits of a natural number. -/
def natToDigits (n : Nat) : Str :=
  if h : n < 10 then [Char.ofNat (48 + n)]
  else natToDigits (n / 10) ++ [Char.ofNat (48 + n % 10)]
decreasing_by exact Nat.div_lt_self (by omega) (by omega)

/-- Decimal rendering of an integer, as `JSON.stringify` prints it. -/
def intToStr (n : Int) : Str :=
  if n < 0 then '-' :: natToDigits n.natAbs else natToDigits n.toNat

mutual

/-- `JSON.stringify` (compact form). -/
def Json.stringify : Json → Str
  | .null => str "null"
  | .bool true => str "true"
  | .bool false => str "false"
  | .num n => intToStr n
  | .str s => '"' :: (escapeStr s ++ ['"'])
  | .arr es => '[' :: (stringifyElems es ++ [']'])
  | .obj fs => '{' :: (stringifyFields fs ++ ['}'])

/-- Array elements, comma separated. -/
def stringifyElems : List Json → Str
  | [] => []
  | e :: es => e.stringify ++ stringifyElemsTail es

/-- Second and later array elements, each preceded by a comma. -/
def stringifyElemsTail : List Json → Str
  | [] => []
  | e :: es => ',' :: (e.stringify ++ stringifyElemsTail es)

/-- Object members, comma separated. -/
def stringifyFields : List (Str × Json) → Str
  | [] => []
  | (k, v) :: fs =>
    '"' :: (escapeStr k ++ '"' :: ':' :: v.stringify) ++ stringifyFieldsTail fs

/-- Second and later object members, each preceded by a comma. -/
def stringifyFieldsTail : List (Str × Json) → Str
  | [] => []
  | (k, v) :: fs =>
    ',' :: ('"' :: (escapeStr k ++ '"' :: ':' :: v.stringify)) ++ stringifyFieldsTail fs

end

/-! ### JSON.parse

A recursive-descent parser, the model of `JSON.parse` on the fragment the
program exchanges: integer numbers (the only numbers it writes), full
string escapes, whitespace between tokens.  `parseV` carries fuel; the
top entry point supplies more fuel than any input can consume. -/

/-- Skip JSON whitespace. -/
def skipWs (s : Str) : Str := s.dropWhile isJsWs

/-- Value of a hexadecimal digit. -/
def hexVal (c : Char) : Option Nat :=
  if 48 ≤ c.toNat && c.toNat ≤ 57 then some (c.toNat - 48)
  else if 97 ≤ c.toNat && c.toNat ≤ 102 then some (c.toNat - 87)
  else if 65 ≤ c.toNat && c.toNat ≤ 70 then some (c.toNat - 55)
  else none

/-- Single-character escapes accepted after a backslash. -/
def escDecode (c : Char) : Option Char :=
  if c = '"' then some '"'
  else if c = '\\' then some '\\'
  else if c = '/' then some '/'
  else if c = 'n' then some '\n'
  else if c = 't' then some '\t'
  else if c = 'r' then some '\r'
  else if c = 'b' then some (Char.ofNat 8)
  else if c = 'f' then some (Char.ofNat 12)
  else none

/-- Read the four hexadecimal digits of a `\u` escape. -/
def parseHex4 (s : Str) : Option (Nat × Str) :=
  match s with
  | h1 :: h2 :: h3 :: h4 :: rest =>
    match hexVal h1, hexVal h2, hexVal h3, hexVal h4 with
    | some a, some b, some c, some d => some ((((a * 16 + b) * 16 + c) * 16 + d), rest)
    | _, _, _, _ => none
  | _ => none

/-- Decode what follows a backslash, given the parser for the remainder
of the body. -/
def escPart (recur : Str → Option (Str × Str)) (rest : Str) : Option (Str × Str) :=
  match rest with
  | [] => none
  | e :: rest2 =>
    if e = 'u' then
      match parseHex4 rest2 with
      | some (n, rest3) => (recur rest3).map (fun p => (Char.ofNat n :: p.1, p.2))
      | none => none
    else
      match escDecode e with
      | some ch => (recur rest2).map (fun p => (ch :: p.1, p.2))
      | none => none

/-- Fuel-indexed string-body parser; one unit of fuel per produced
character, so the input length is always enough fuel. -/
def parseStrBodyF : Nat → Str → Option (Str × Str)
  | 0, _ => none
  | fuel + 1, s =>
    match s with
    | [] => none
    | c :: rest =>
      if c = '"' then some ([], rest)
      else if c = '\\' then escPart (parseStrBodyF fuel) rest
      else (parseStrBodyF fuel rest).map (fun p => (c :: p.1, p.2))

/-- Parse a string body up to and including the closing quote, returning
the decoded body and the rest of the input. -/
def parseStrBody (s : Str) : Option (Str × Str) := parseStrBodyF s.length s

/-- The accumulator step of decimal evaluation. -/
def digitStep (acc : Nat) (c : Char) : Nat := acc * 10 + (c.toNat - 48)

/-- Parse a nonempty run of decimal digits. -/
def parseDigits (s : Str) : Option (Nat × Str) :=
  if s.takeWhile isDigitC = [] then none
  else some ((s.takeWhile isDigitC).foldl digitStep 0, s.dropWhile isDigitC)

/-- Parse an integer JSON number (model restriction: no fraction or
exponent; the program never writes one). -/
def parseNum (s : Str) : Option (Json × Str) :=
  match s with
  | [] => none
  | c :: rest =>
    if c = '-' then (parseDigits rest).map (fun p => (Json.num (-(p.1 : Int)), p.2))
    else (parseDigits (c :: rest)).map (fun p => (Json.num (p.1 : Int), p.2))

/-- Dispatch on the first significant character of a value, given the
parsers for nonempty element and member lists. -/
def valCore (elemsP : Str → Option (List Json × Str))
    (fieldsP : Str → Option (List (Str × Json) × Str)) (s1 : Str) :
    Option (Json × Str) :=
  if s1.head? = some '"' then
    (parseStrBody s1.tail).map (fun p => (Json.str p.1, p.2))
  else if s1.head? = some '[' then
    (if (skipWs s1.tail).head? = some ']' then some (.arr [], (skipWs s1.tail).tail)
     else (elemsP (skipWs s1.tail)).map (fun p => (Json.arr p.1, p.2)))
  else if s1.head? = some '{' then
    (if (skipWs s1.tail).head? = some '}' then some (.obj [], (skipWs s1.tail).tail)
     else (fieldsP (skipWs s1.tail)).map (fun p => (Json.obj p.1, p.2)))
  else if leadsWith ['n', 'u', 'l', 'l'] s1 then some (.null, s1.drop 4)
  else if leadsWith ['t', 'r', 'u', 'e'] s1 then some (.bool true, s1.drop 4)
  else if leadsWith ['f', 'a', 'l', 's', 'e'] s1 then some (.bool false, s1.drop 5)
  else parseNum s1

/-- One element followed by a comma and more elements, or by `]`. -/
def elemsStep (vP : Str → Option (Json × Str))
    (elemsP : Str → Option (List Json × Str)) (s : Str) :
    Option (List Json × Str) :=
  match vP s with
  | none => none
  | some (v, r) =>
    if (skipWs r).head? = some ',' then
      (elemsP (skipWs r).tail).map (fun p => (v :: p.1, p.2))
    else if (skipWs r).head? = some ']' then some ([v], (skipWs r).tail)
    else none

/-- One `"key": value` member followed by a comma and more members, or
by `}`. -/
def fieldsStep (vP : Str → Option (Json × Str))
    (fieldsP : Str → Option (List (Str × Json) × Str)) (s : Str) :
    Option (List (Str × Json) × Str) :=
  if (skipWs s).head? = some '"' then
    match parseStrBody (skipWs s).tail with
    | none => none
    | some (k, r1) =>
      if (skipWs r1).head? = some ':' then
        match vP (skipWs r1).tail with
        | none => none
        | some (v, r3) =>
          if (skipWs r3).head? = some ',' then
            (fieldsP (skipWs r3).tail).map (fun p => ((k, v) :: p.1, p.2))
          else if (skipWs r3).head? = some '}' then some ([(k, v)], (skipWs r3).tail)
          else none
      else none
  else none

mutual

/-- Parse one JSON value; returns the value and the unconsumed rest. -/
def parseV : Nat → Str → Option (Json × Str)
  | 0, _ => none
  | fuel + 1, s => valCore (parseElems1 fuel) (parseFields1 fuel) (skipWs s)

/-- Parse one or more comma-separated array elements and the closing
bracket. -/
def parseElems1 : Nat → Str → Option (List Json × Str)
  | 0, _ => none
  | fuel + 1, s => elemsStep (parseV fuel) (parseElems1 fuel) s

/-- Parse one or more comma-separated object members and the closing
brace. -/
def parseFields1 : Nat → Str → Option (List (Str × Json) × Str)
  | 0, _ => none
  | fuel + 1, s => fieldsStep (parseV fuel) (parseFields1 fuel) s

end

/-- `JSON.parse` (as an `Option`; `none` models the thrown SyntaxError):
one complete value, with nothing but whitespace around it. -/
def Json.parse (s : Str) : Option Json :=
  match parseV (s.length + 1) s with
  | some (v, rest) => if skipWs rest = [] then some v else none
  | none => none

/-- A list beginning with no character satisfying `p`. -/
def headNot (p : Char → Bool) (s : Str) : Prop :=
  ∀ c, s.head? = some c → p c = false

/-! ### Parser round-trip -/

mutual

/-- Node count of a value; an upper bound on the fuel the parser needs. -/
def countV : Json → Nat
  | .null => 1
  | .bool _ => 1
  | .num _ => 1
  | .str _ => 1
  | .arr es => 1 + countElems es
  | .obj fs => 1 + countFields fs

/-- Node count of an element list. -/
def countElems : List Json → Nat
  | [] => 0
  | e :: es => 1 + countV e + countElems es

/-- Node count of a member list. -/
def countFields : List (Str × Json) → Nat
  | [] => 0
  | (_, v) :: fs => 1 + countV v + countFields fs

end

/-! ### Embedded agent-meta codec (task-runner lines 598-622)

`parseAgentMeta` finds the first occurrence of the sentinel and attempts
to JSON-decode the suffix; `getCleanDescription` keeps the trimmed
prefix; `setAgentMeta` re-embeds canonical JSON after the sentinel. -/

/-- The sentinel `---agent-meta---`. -/
def sentinel : Str := str "---agent-meta---"

/-- The separator `"\n\n---agent-meta---\n"` used by `setAgentMeta`. -/
def META_SEPARATOR : Str := str "\n\n---agent-meta---\n"

/-- `parseAgentMeta` (task-runner lines 600-610). -/
def parseAgentMeta (description : Str) : Option Json :=
  if description = [] then none
  else
    match jsIndexOf sentinel description with
    | none => none
    | some idx => Json.parse (jsTrim (description.drop (idx + 16)))

/-- `getCleanDescription` (task-runner lines 612-617). -/
def getCleanDescription (description : Str) : Str :=
  if description = [] then []
  else
    match jsIndexOf sentinel description with
    | none => description
    | some idx => jsTrim (description.take idx)

/-- `setAgentMeta` (task-runner lines 619-622). -/
def setAgentMeta (description : Str) (meta : Json) : Str :=
  getCleanDescription description ++ META_SEPARATOR ++ meta.stringify

/-- Number of sentinel occurrences: positions of `s` at which `pat`
matches (all positions, occurrences may overlap). -/
def countOccur (pat : Str) : Str → Nat
  | [] => if leadsWith pat [] then 1 else 0
  | c :: rest => (if leadsWith pat (c :: rest) then 1 else 0) + countOccur pat rest

/-! ### Agent registry, tasks and routing (task-runner lines 646-677)

Model restrictions: agent ids are taken to be non-integer-like strings,
so a JS object keyed by them enumerates in insertion order; `sort` with
comparator `b[1]-a[1]` is stable in JS, so sorting by descending score
and taking entry 0 picks the first entry holding the maximal score,
which is what `pickBest` computes. -/

structure Agent where
  id : Str
  cmd : Str
  args : List Str
  keywords : Option (List Str)
  ramMB : Option Nat
  default : Bool
  enabled : Bool
  note : Option Str

/-- A board task (named `BoardTask`: `Task` is taken by the Lean core). -/
structure BoardTask where
  id : Str
  title : Option Str
  description : Option Str
  desc : Option Str
  color : Option Int

/-- JS `a || b` on two possibly-absent strings. -/
def jsOr (a b : Option Str) : Str :=
  match a with
  | some s => if s = [] then b.getD [] else s
  | none => b.getD []

/-- `task.description || task.desc`. -/
def BoardTask.descText (t : BoardTask) : Str := jsOr t.description t.desc

/-- Keyword score of one agent against the searchable text. -/
def scoreAgent (text : Str) (ks : List Str) : Nat :=
  ks.foldl (fun sc kw => if jsIncludes text kw then sc + 1 else sc) 0

/-- JS object write `scores[id] = sc`: update in place or append. -/
def setScore : List (Str × Nat) → Str → Nat → List (Str × Nat)
  | [], key, v => [(key, v)]
  | (k, w) :: rest, key, v =>
    if k = key then (k, v) :: rest else (k, w) :: setScore rest key v

/-- `agentsConfig.filter(a => a.enabled && a.keywords && a.keywords.length > 0)`. -/
def enabledKeywordAgents (cfg : List Agent) : List Agent :=
  cfg.filter (fun a => a.enabled &&
    (match a.keywords with
     | some ks => !ks.isEmpty
     | none => false))

/-- The `scores` object as its entry list, in insertion order. -/
def scoresOf (text : Str) (cfg : List Agent) : List (Str × Nat) :=
  (enabledKeywordAgents cfg).foldl
    (fun m a =>
      if 0 < scoreAgent text (a.keywords.getD []) then
        setScore m a.id (scoreAgent text (a.keywords.getD []))
      else m)
    []

/-- Stable descending sort followed by `[0]`: the first entry with the
maximal score. -/
def pickBest : (Str × Nat) → List (Str × Nat) → (Str × Nat)
  | e, [] => e
  | e, e2 :: rest => pickBest (if e2.2 > e.2 then e2 else e) rest

/-- The searchable text: lower-cased title plus stripped description. -/
def BoardTask.searchText (t : BoardTask) : Str :=
  jsToLower ((t.title.getD []) ++ ' ' :: getCleanDescription t.descText)

/-- Keyword routing (the part of `routeToAgent` after the meta check). -/
def routeByKeywords (cfg : List Agent) (task : BoardTask) : Json :=
  match scoresOf task.searchText cfg with
  | [] =>
    (match cfg.find? (fun a => a.enabled && a.default) with
     | some a => Json.str a.id
     | none =>
       match cfg.find? (fun a => a.enabled) with
       | some a => Json.str a.id
       | none => Json.str (str "gemini"))
  | e :: rest => Json.str (pickBest e rest).1

/-- `routeToAgent` (task-runner lines 648-677).  The embedded meta's
`agent` value is returned as-is when truthy, before any registry check. -/
def routeToAgent (cfg : List Agent) (task : BoardTask) : Json :=
  match parseAgentMeta task.descText with
  | some meta =>
    if meta.truthy then
      match meta.getField (str "agent") with
      | some v => if v.truthy then v else routeByKeywords cfg task
      | none => routeByKeywords cfg task
    else routeByKeywords cfg task
  | none => routeByKeywords cfg task

/-! ### Agent spawning (task-runner lines 716-805) -/

structure AgentResult where
  success : Bool
  stdout : Str
  stderr : Str
  exitCode : Int
  durationMs : Nat
  timedOut : Bool

/-- `MAX_STDOUT` (line 539): the 10 MiB buffer limit. -/
def MAX_STDOUT : Nat := 10 * 1024 * 1024

/-- One `data` event: the chunk is appended in full iff the captured
length is still below the limit (lines 772-778). -/
def captureStep (acc chunk : Str) : Str :=
  if acc.length < MAX_STDOUT then acc ++ chunk else acc

/-- The captured stream after the process wrote the given chunks. -/
def captureStream (chunks : List Str) : Str := chunks.foldl captureStep []

/-- The result `spawnAgent` resolves with on `close` (lines 780-792);
`killed` is set by the timeout handler.  The exit code is modelled as an
integer. -/
def spawnOutcome (outChunks errChunks : List Str) (code : Int) (killed : Bool)
    (durationMs : Nat) : AgentResult :=
  { success := code = 0 && !killed
    stdout := captureStream outChunks
    stderr := captureStream errChunks
    exitCode := code
    durationMs := durationMs
    timedOut := killed }

/-- JS `===` between the routed agent value and a registry id string. -/
def jsonIsStr (j : Json) (s : Str) : Bool :=
  match j with
  | Json.str t => t = s
  | _ => false

/-- The validation prologue of `spawnAgent` (lines 716-735): `some r`
means the promise resolves immediately with `r` and no process is
spawned; `none` means a process is spawned. -/
def spawnAgentCheck (cfg : List Agent) (agent : Json) : Option AgentResult :=
  match cfg.find? (fun a => jsonIsStr agent a.id) with
  | none => some
      { success := false
        stdout := []
        stderr := str "Unknown agent: " ++ (match agent with | Json.str s => s | _ => []) ++
          str " (not found in agents.json)"
        exitCode := 1
        durationMs := 0
        timedOut := false }
  | some agentDef =>
    if !agentDef.enabled then
      some
        { success := false
          stdout := []
          stderr := str "Agent " ++ agentDef.id ++ str " is disabled: " ++
            (match agentDef.note with
             | some n => if n = [] then str "no reason given" else n
             | none => str "no reason given")
          exitCode := 1
          durationMs := 0
          timedOut := false }
    else none

/-! ### processTask: meta update at dispatch and settling (lines 921-1049) -/

/-- The default meta object built when the description holds none. -/
def defaultMeta : Json :=
  Json.obj [(str "agent", Json.null), (str "status", Json.str (str "queued")),
    (str "attempts", Json.num 0), (str "startedAt", Json.null),
    (str "resultPath", Json.null), (str "lastError", Json.null)]

/-- `parseAgentMeta(...) || {agent: null, status: "queued", ...}`. -/
def metaOf (d : Str) : Json :=
  match parseAgentMeta d with
  | some m => if m.truthy then m else defaultMeta
  | none => defaultMeta

/-- The numeric value of `meta.attempts || 0`: `none` when the field
holds a value whose JS numeric coercion the model does not cover (this
program only ever writes numbers there). -/
def getAttempts (m : Json) : Option Int :=
  match m.getField (str "attempts") with
  | some (Json.num n) => some n
  | some Json.null => some 0
  | some (Json.bool false) => some 0
  | some (Json.str s) => if s = [] then some 0 else none
  | none => some 0
  | _ => none

/-- JS property write on the (possibly non-object) meta value; writing a
property of a primitive is a silent no-op outside strict mode. -/
def Json.setF (m : Json) (k : Str) (v : Json) : Json :=
  match m with
  | Json.obj fs => Json.obj (setField fs k v)
  | other => other

/-- The meta after the dispatch block (lines 942-953): agent and status
set, attempts incremented, startedAt stamped. -/
def dispatchMeta (d : Str) (agent : Json) (now : Str) : Option Json :=
  (getAttempts (metaOf d)).map (fun n =>
    ((((metaOf d).setF (str "agent") agent).setF
        (str "status") (Json.str (str "running"))).setF
      (str "attempts") (Json.num (n + 1))).setF (str "startedAt") (Json.str now))

/-- The column a task is moved to. -/
inductive ColTarget where
  | queue
  | wip
  | review
deriving DecidableEq

/-- `MAX_ATTEMPTS` (line 538). -/
def MAX_ATTEMPTS : Int := 3

/-- The error string of the failure branch (lines 1012-1014). -/
def errorMsgOf (r : AgentResult) : Str :=
  if r.timedOut then str "Timeout (10min)"
  else str "Exit " ++ intToStr r.exitCode ++ str ": " ++ r.stderr.take 200

/-- `meta.attempts < MAX_ATTEMPTS` for the numeric attempts this code
writes at dispatch. -/
def attemptsLt (m : Json) (k : Int) : Bool :=
  match m.getField (str "attempts") with
  | some (Json.num n) => n < k
  | _ => false

/-- The meta written and the column targeted after the agent finished
(lines 991-1049), given the post-dispatch meta, the supervisor result,
the collected summary and the result path. -/
def settleTask (meta : Json) (r : AgentResult) (summary resultPath : Str) :
    Json × ColTarget :=
  if r.success then
    ((((meta.setF (str "status") (Json.str (str "review"))).setF
        (str "resultPath") (Json.str resultPath)).setF
      (str "lastError") Json.null).setF
        (str "resultSummary") (Json.str (summary.take 2000)), ColTarget.review)
  else
    let m1 := (((meta.setF (str "status") (Json.str (str "failed"))).setF
        (str "resultPath") (Json.str resultPath)).setF
      (str "lastError") (Json.str (errorMsgOf r))).setF
        (str "resultSummary")
        (Json.str ((if summary = [] then errorMsgOf r else summary).take 2000))
    if attemptsLt m1 MAX_ATTEMPTS then
      (m1.setF (str "status") (Json.str (str "queued")), ColTarget.queue)
    else (m1, ColTarget.review)

/-! ### LLM provider chain (spec-server lines 258-343) -/

/-- What the provider's HTTP endpoint does on this call. -/
inductive ProviderOutcome where
  | ok (text : Str) (tokens : Json)
  | rateLimited
  | httpError (status : Nat) (body : Str)
  | netError (msg : Str)

/-- The record a successful `callLLM` returns. -/
structure LLMResult where
  text : Str
  tokens : Json
  provider : Str

/-- Which provider function ran (for stating how often each is called). -/
inductive ProviderId where
  | gemini
  | openrouter
deriving DecidableEq

/-- `callGemini` (lines 258-290): throws without a key; a 429 becomes the
distinguished rate-limit error; other failures carry the status text. -/
def callGemini (hasKey : Bool) (outcome : ProviderOutcome) : Except Str LLMResult :=
  if !hasKey then .error (str "GEMINI_API_KEY not set")
  else
    match outcome with
    | .ok text tokens =>
      .ok { text := text, tokens := tokens, provider := str "gemini-2.5-flash" }
    | .rateLimited => .error (str "Gemini rate limited")
    | .httpError status body =>
      .error (str "Gemini API " ++ natToDigits status ++ str ": " ++ body.take 200)
    | .netError msg => .error msg

/-- `callOpenRouter` (lines 292-319): throws without a key; any non-2xx
(429 included, there is no special case here) carries the status text. -/
def callOpenRouter (hasKey : Bool) (outcome : ProviderOutcome) : Except Str LLMResult :=
  if !hasKey then .error (str "OPENROUTER_API_KEY not set")
  else
    match outcome with
    | .ok text tokens =>
      .ok { text := text, tokens := tokens, provider := str "qwen3-235b (OpenRouter)" }
    | .rateLimited => .error (str "OpenRouter API 429: ")
    | .httpError status body =>
      .error (str "OpenRouter API " ++ natToDigits status ++ str ": " ++ body.take 200)
    | .netError msg => .error msg

/-- `callLLM` (lines 323-343).  Besides the result it returns the list of
provider functions invoked, in order. -/
def callLLM (gKey oKey : Bool) (g o : ProviderOutcome) :
    Except Str LLMResult × List ProviderId :=
  if gKey then
    match callGemini gKey g with
    | .ok result => (.ok result, [.gemini])
    | .error _ =>
      match callOpenRouter oKey o with
      | .ok result => (.ok result, [.gemini, .openrouter])
      | .error e => (.error e, [.gemini, .openrouter])
  else
    match callOpenRouter oKey o with
    | .ok result => (.ok result, [.openrouter])
    | .error e => (.error e, [.openrouter])

/-! ### Board store clients (spec-server lines 37-59, task-runner 556-586) -/

structure HttpResponse where
  status : Nat
  body : Json

/-- `resp.ok`. -/
def respOk (r : HttpResponse) : Bool := 200 ≤ r.status && r.status < 300

/-- The spec-server's `kanbanFetch`: the server is an oracle from "is the
Authorization header attached" to the response; on a 401 with a token
configured the request is retried once without the header. -/
def kanbanFetch (hasToken : Bool) (server : Bool → HttpResponse) : Except Nat Json :=
  if (server hasToken).status = 401 && hasToken then
    if !respOk (server false) then .error (server false).status
    else .ok (server false).body
  else if !respOk (server hasToken) then .error (server hasToken).status
  else .ok (server hasToken).body

/-- The task-runner's `kanbanGet`/`kanbanPut`/`kanbanPost` request core:
one request, non-2xx throws, no retry of any kind. -/
def trKanbanRequest (hasToken : Bool) (server : Bool → HttpResponse) : Except Nat Json :=
  if !respOk (server hasToken) then .error (server hasToken).status
  else .ok (server hasToken).body

/-! ### POST /api/board (src/api/backlog.js board handler, lines 87-94) -/

structure Board where
  columns : Json
  initiatives : Json
  backlog : Option Json

/-- `incoming.backlog = current.backlog || []; redisSet(incoming)`. -/
def boardPost (incoming current : Board) : Board :=
  { incoming with
    backlog := some
      (match current.backlog with
       | some b => if b.truthy then b else Json.arr []
       | none => Json.arr []) }

/-! ### extractJSON (spec-server lines 347-408)

The two regex fallback layers (3 and 4) are modelled after the
backtracking behaviour of the literal patterns in the source; the claims
settled below all land in layers 1-2, where the model is exact. -/

/-- `endsWith`. -/
def endsWith (pat s : Str) : Bool := leadsWith pat.reverse s.reverse

/-- The leading-fence strip: `replace(/^｀｀｀(?:json)?\s*\n?/i, "")`. -/
def stripLeadFence (s : Str) : Str :=
  if leadsWith (str "```") s then
    if jsToLower ((s.drop 3).take 4) = str "json" then
      ((s.drop 3).drop 4).dropWhile isJsWs
    else (s.drop 3).dropWhile isJsWs
  else s

/-- The trailing-fence strip: `replace(/\n?｀｀｀\s*$/i, "")`. -/
def stripTrailFence (s : Str) : Str :=
  if endsWith (str "```") (jsTrimEnd s) then
    if ((jsTrimEnd s).take ((jsTrimEnd s).length - 3)).getLast? = some '\n' then
      ((jsTrimEnd s).take ((jsTrimEnd s).length - 3)).dropLast
    else (jsTrimEnd s).take ((jsTrimEnd s).length - 3)
  else s

/-- One global-replace pass of `/<think>[\s\S]*?<\/think>\s*/g`: remove
each non-overlapping lazy match and the whitespace after it. -/
def removeThinkF : Nat → Str → Str
  | 0, s => s
  | fuel + 1, s =>
    match jsIndexOf (str "<think>") s with
    | none => s
    | some i =>
      match jsIndexOf (str "</think>") (s.drop (i + 7)) with
      | none => s
      | some j =>
        s.take i ++ removeThinkF fuel ((s.drop (i + 7 + (j + 8))).dropWhile isJsWs)

/-- Each removal consumes at least 15 characters, so the input length is
always enough fuel. -/
def removeThink (s : Str) : Str := removeThinkF s.length s

/-- Layer 1: trim, strip fences, strip think blocks, trim. -/
def cleanupText (text : Str) : Str :=
  jsTrim (removeThink (stripTrailFence (stripLeadFence (jsTrim text))))

/-- `if (!parsed.tasks) parsed.tasks = []`: the `tasks` property is
replaced by `[]` when it is missing or JS-falsy. -/
def defaultTasksField (fs : List (Str × Json)) : List (Str × Json) :=
  match lookupField fs (str "tasks") with
  | some v => if v.truthy then fs else setField fs (str "tasks") (Json.arr [])
  | none => setField fs (str "tasks") (Json.arr [])

/-- Index of the last `}` of the string. -/
def lastBrace (s : Str) : Option Nat :=
  match jsIndexOf ['}'] s.reverse with
  | some k => some (s.length - 1 - k)
  | none => none

/-- Start of the leftmost match of `/\{[\s\S]*"spec"[\s\S]*\}/`, whose
greedy end is the last `}` at `q`: the first `{` with a `"spec"`
occurrence strictly between it and `q`. -/
def layer3Start (s : Str) (q : Nat) : Option Nat :=
  (List.range q).find? (fun p =>
    s.get? p = some '{' &&
      (List.range q).any (fun r =>
        p < r && r + 6 ≤ q && leadsWith (str "\"spec\"") (s.drop r)))

/-- The substring matched by the layer-3 regex, when any. -/
def layer3Match (s : Str) : Option Str :=
  match lastBrace s with
  | none => none
  | some q =>
    match layer3Start s q with
    | none => none
    | some p => some ((s.take (q + 1)).drop p)

/-- Layer 3: decode the brace-to-brace substring holding `"spec"`. -/
def layer3 (cleaned : Str) : Option Json :=
  match layer3Match cleaned with
  | none => none
  | some sub =>
    match Json.parse sub with
    | some (Json.obj fs) =>
      if (lookupField fs (str "spec")).isSome then some (Json.obj (defaultTasksField fs))
      else none
    | _ => none

/-- Lazy capture of `"spec"\s*:\s*"([\s\S]*?)"\s*,\s*"tasks"`: scan for
the first closing quote followed by `ws , ws "tasks"`. -/
def captureUntilTasks : Str → Str → Option Str
  | [], _ => none
  | c :: rest, acc =>
    if c = '"' then
      match skipWs rest with
      | ',' :: r2 =>
        if leadsWith (str "\"tasks\"") (skipWs r2) then some acc.reverse
        else captureUntilTasks rest (c :: acc)
      | _ => captureUntilTasks rest (c :: acc)
    else captureUntilTasks rest (c :: acc)

/-- The captured `spec` body of the layer-4 spec regex, from the first
`"spec"` occurrence. -/
def matchSpecCapture (s : Str) : Option Str :=
  match jsIndexOf (str "\"spec\"") s with
  | none => none
  | some a =>
    match skipWs (s.drop (a + 6)) with
    | ':' :: r2 =>
      match skipWs r2 with
      | '"' :: r3 => captureUntilTasks r3 []
      | _ => none
    | _ => none

/-- Tail check `\s*\}?\s*$` after the captured tasks array. -/
def tailOk (t : Str) : Bool :=
  match skipWs t with
  | '}' :: u => (skipWs u).isEmpty
  | u => u.isEmpty

/-- The greedy end of `(\[[\s\S]*\])`: the last `]` whose tail matches. -/
def lastValidBracket (x : Str) : Option Nat :=
  ((List.range x.length).filter
    (fun i => x.get? i = some ']' && tailOk (x.drop (i + 1)))).getLast?

/-- The captured tasks array text of
`"tasks"\s*:\s*(\[[\s\S]*\])\s*\}?\s*$`. -/
def tasksArrayCapture (s : Str) : Option Str :=
  match jsIndexOf (str "\"tasks\"") s with
  | none => none
  | some a =>
    match skipWs (s.drop (a + 7)) with
    | ':' :: r2 =>
      match skipWs r2 with
      | '[' :: r3 =>
        match lastValidBracket ('[' :: r3) with
        | some k => some (('[' :: r3).take (k + 1))
        | none => none
      | _ => none
    | _ => none

/-- Sequential global replace, continuing after each replacement. -/
def replaceAllF : Nat → Str → Str → Str → Str
  | 0, _, _, s => s
  | fuel + 1, pat, rep, s =>
    match jsIndexOf pat s with
    | none => s
    | some i => s.take i ++ rep ++ replaceAllF fuel pat rep (s.drop (i + pat.length))

def replaceAll (pat rep s : Str) : Str := replaceAllF s.length pat rep s

/-- The three unescaping passes applied to the captured spec. -/
def unescapeSpec (s : Str) : Str :=
  replaceAll ['\\', '\\'] ['\\']
    (replaceAll ['\\', '"'] ['"'] (replaceAll ['\\', 'n'] ['\n'] s))

/-- Capture up to the first `"` (the lazy `[^"]*?` of the task regex). -/
def captureNoQuote (s : Str) : Option (Str × Str) :=
  match jsIndexOf ['"'] s with
  | none => none
  | some i => some (s.take i, s.drop (i + 1))

/-- `matchAll` of the per-task regex: collect `{title, details}` pairs. -/
def scanTaskPairs : Nat → Str → List (Str × Str)
  | 0, _ => []
  | fuel + 1, s =>
    match jsIndexOf (str "\"title\"") s with
    | none => []
    | some a =>
      match skipWs (s.drop (a + 7)) with
      | ':' :: r2 =>
        (match skipWs r2 with
         | '"' :: r3 =>
           (match captureNoQuote r3 with
            | some (title, r4) =>
              (match skipWs r4 with
               | ',' :: r5 =>
                 if leadsWith (str "\"details\"") (skipWs r5) then
                   match skipWs ((skipWs r5).drop 9) with
                   | ':' :: r6 =>
                     (match skipWs r6 with
                      | '"' :: r7 =>
                        (match captureNoQuote r7 with
                         | some (details, r8) =>
                           (title, details) :: scanTaskPairs fuel r8
                         | none => [])
                      | _ => scanTaskPairs fuel (s.drop (a + 7)))
                   | _ => scanTaskPairs fuel (s.drop (a + 7))
                 else scanTaskPairs fuel (s.drop (a + 7))
               | _ => scanTaskPairs fuel (s.drop (a + 7)))
            | none => [])
         | _ => scanTaskPairs fuel (s.drop (a + 7)))
      | _ => scanTaskPairs fuel (s.drop (a + 7))

/-- Layer 4: regex extraction of `spec` and `tasks`. -/
def layer4 (cleaned : Str) : Option Json :=
  match matchSpecCapture cleaned, tasksArrayCapture cleaned with
  | some cap, some arrTxt =>
    let spec := unescapeSpec cap
    let tasks :=
      match Json.parse arrTxt with
      | some (Json.arr es) => es
      | _ =>
        (scanTaskPairs arrTxt.length arrTxt).map (fun p =>
          Json.obj [(str "title", Json.str p.1), (str "details", Json.str p.2)])
    if spec ≠ [] && !tasks.isEmpty then
      some (Json.obj [(str "spec", Json.str spec), (str "tasks", Json.arr tasks)])
    else none
  | _, _ => none

/-- Layers 3 and 4 in order. -/
def extractFallback (cleaned : Str) : Option Json :=
  match layer3 cleaned with
  | some j => some j
  | none => layer4 cleaned

/-- `extractJSON` (lines 347-408): `none` models the thrown error. -/
def extractJSON (text : Str) : Option Json :=
  match Json.parse (cleanupText text) with
  | some (Json.obj fs) =>
    if (lookupField fs (str "spec")).isSome then
      some (Json.obj (defaultTasksField fs))
    else extractFallback (cleanupText text)
  | _ => extractFallback (cleanupText text)

/-- Total length of a chunk sequence. -/
def sumLen (chunks : List Str) : Nat := (chunks.map List.length).sum

/-- Length of the longest chunk in a sequence. -/
def maxChunkLen (chunks : List Str) : Nat :=
  chunks.foldr (fun c m => max c.length m) 0

/-! ### C7: keyword routing -/

/-- Spec-side: the maximal score among the entries of the scores list. -/
def maxSnd (l : List (Str × Nat)) : Nat := l.foldr (fun p m => max p.2 m) 0

/-- Spec-side, following the claim's words "the highest-scoring agent is
chosen with ties broken by registry order": the first entry attaining
the maximal score. -/
def firstMax (l : List (Str × Nat)) : Option (Str × Nat) :=
  l.find? (fun p => p.2 == maxSnd l)

/-- Spec-side, following the claim's words "case-insensitive substring":
scoring with both the text and the keyword lowercased. -/
def ciScoreAgent (text : Str) (ks : List Str) : Nat :=
  ks.foldl (fun sc kw => if jsIncludes (jsToLower text) (jsToLower kw) then sc + 1 else sc) 0

/-- C7 counterexample registry: agent `a` carries the capitalized
keyword `Test`, agent `b` is the enabled default. -/
def c7cfgCex : List Agent :=
  [⟨str "a", str "run-a", [], some [str "Test"], none, false, true, none⟩,
   ⟨str "b", str "run-b", [], some [str "zzz"], none, true, true, none⟩]

/-- C7 counterexample task: its title contains `Test` verbatim. -/
def c7taskCex : BoardTask := ⟨str "t1", some (str "Test this"), none, none, none⟩

/-- C7 witness registry: two enabled keyword agents that will tie. -/
def c7cfg2 : List Agent :=
  [⟨str "alpha", str "run-a", [], some [str "fix"], none, false, true, none⟩,
   ⟨str "beta", str "run-b", [], some [str "bug"], none, true, true, none⟩]

/-- C7 witness task: its title contains both keywords. -/
def c7task2 : BoardTask := ⟨str "t2", some (str "fix bug"), none, none, none⟩

/-- C8 counterexample input: a bare JSON object whose `tasks` key is
present but `null`. -/
def c8in : Str := '{' :: str "\"spec\":\"x\",\"tasks\":null" ++ ['}']

/-- The fenced model output of end-to-end scenario 4. -/
def sc4txt : Str :=
  str "```json\n" ++ '{' :: str "\"spec\":\"# X\",\"tasks\":[" ++
    '{' :: str "\"title\":\"T\",\"details\":\"D\"" ++ '}' :: str "]" ++
    '}' :: str "\n```"

/-! ### Basic facts about the string model -/

lemma char_ne_of_toNat_ne {c d : Char} (h : c.toNat ≠ d.toNat) : c ≠ d :=
  fun e => h (congrArg Char.toNat e)

lemma skipWs_cons_not_ws {c : Char} {s : Str} (h : isJsWs c = false) :
    skipWs (c :: s) = c :: s := by
  simp [skipWs, List.dropWhile_cons, h]

lemma isJsWs_of_digit {c : Char} (h : isDigitC c = true) : isJsWs c = false := by
  simp [isDigitC] at h
  simp [isJsWs]
  omega

lemma headNot_nil {p : Char → Bool} : headNot p [] := by
  intro c h; cases h

lemma headNot_cons {p : Char → Bool} {c : Char} {s : Str} (h : p c = false) :
    headNot p (c :: s) := by
  intro d hd
  simp at hd
  exact hd ▸ h

lemma takeWhile_app_all {p : Char → Bool} {xs rest : Str}
    (hxs : ∀ c ∈ xs, p c = true) (hrest : headNot p rest) :
    (xs ++ rest).takeWhile p = xs := by
  induction xs with
  | nil =>
    cases rest with
    | nil => rfl
    | cons c r => simp [List.takeWhile_cons, hrest c rfl]
  | cons x xs ih =>
    simp only [List.cons_append, List.takeWhile_cons, hxs x (by simp), if_true]
    rw [ih (fun c hc => hxs c (by simp [hc]))]

lemma dropWhile_app_all {p : Char → Bool} {xs rest : Str}
    (hxs : ∀ c ∈ xs, p c = true) (hrest : headNot p rest) :
    (xs ++ rest).dropWhile p = rest := by
  induction xs with
  | nil =>
    cases rest with
    | nil => rfl
    | cons c r => simp [List.dropWhile_cons, hrest c rfl]
  | cons x xs ih =>
    simp only [List.cons_append, List.dropWhile_cons, hxs x (by simp), if_true]
    exact ih (fun c hc => hxs c (by simp [hc]))

/-! ### Decimal digits round-trip -/

lemma toNat_ofNat_digit {k : Nat} (h : k < 10) : (Char.ofNat (48 + k)).toNat = 48 + k := by
  interval_cases k <;> decide

lemma natToDigits_all_digits : ∀ n, ∀ c ∈ natToDigits n, isDigitC c = true := by
  intro n
  induction n using Nat.strong_induction_on with
  | _ n ih =>
    rw [natToDigits]
    split
    · next h =>
      intro c hc
      simp only [List.mem_singleton] at hc
      subst hc
      simp [isDigitC, toNat_ofNat_digit h]
      omega
    · next h =>
      intro c hc
      rcases List.mem_append.1 hc with h1 | h1
      · exact ih (n / 10) (Nat.div_lt_self (by omega) (by omega)) c h1
      · simp only [List.mem_singleton] at h1
        subst h1
        have hm : n % 10 < 10 := Nat.mod_lt _ (by omega)
        simp [isDigitC, toNat_ofNat_digit hm]
        omega

lemma natToDigits_ne_nil (n : Nat) : natToDigits n ≠ [] := by
  rw [natToDigits]
  split <;> simp

lemma natToDigits_val : ∀ n, (natToDigits n).foldl digitStep 0 = n := by
  intro n
  induction n using Nat.strong_induction_on with
  | _ n ih =>
    rw [natToDigits]
    split
    · next h =>
      simp [digitStep, toNat_ofNat_digit h]
    · next h =>
      rw [List.foldl_append, ih (n / 10) (Nat.div_lt_self (by omega) (by omega))]
      have hm : n % 10 < 10 := Nat.mod_lt _ (by omega)
      simp [digitStep, toNat_ofNat_digit hm]
      omega

lemma parseDigits_round {n : Nat} {rest : Str} (hrest : headNot isDigitC rest) :
    parseDigits (natToDigits n ++ rest) = some (n, rest) := by
  unfold parseDigits
  rw [takeWhile_app_all (natToDigits_all_digits n) hrest,
    dropWhile_app_all (natToDigits_all_digits n) hrest]
  simp [natToDigits_ne_nil, natToDigits_val]

lemma natToDigits_cons (n : Nat) :
    ∃ c cs, natToDigits n = c :: cs ∧ isDigitC c = true := by
  cases h : natToDigits n with
  | nil => exact absurd h (natToDigits_ne_nil n)
  | cons c cs =>
    exact ⟨c, cs, rfl, natToDigits_all_digits n c (by rw [h]; simp)⟩

lemma parseNum_round (n : Int) {rest : Str} (h : headNot isDigitC rest) :
    parseNum (intToStr n ++ rest) = some (.num n, rest) := by
  unfold intToStr
  by_cases hn : n < 0
  · simp only [hn, if_true, List.cons_append]
    rw [parseNum]
    simp only [eq_self_iff_true, if_true]
    rw [parseDigits_round h]
    simp only [Option.map_some', Option.some.injEq, Prod.mk.injEq, Json.num.injEq, and_true]
    omega
  · simp only [hn, if_false]
    obtain ⟨c, cs, hds, hdig⟩ := natToDigits_cons n.toNat
    rw [hds, List.cons_append, parseNum]
    have hne : c ≠ '-' := by
      apply char_ne_of_toNat_ne
      simp [isDigitC] at hdig
      intro hc
      rw [hc] at hdig
      revert hdig
      decide
    rw [if_neg hne, ← List.cons_append, ← hds, parseDigits_round h]
    simp only [Option.map_some', Option.some.injEq, Prod.mk.injEq, Json.num.injEq, and_true]
    omega

/-! ### String escaping round-trip -/

lemma hexVal_hexDigitChar {x : Nat} (h : x < 16) : hexVal (hexDigitChar x) = some x := by
  interval_cases x <;> decide

lemma parseStrBodyF_escape :
    ∀ (t : Str) (fuel : Nat) (r : Str), t.length < fuel →
      parseStrBodyF fuel (escapeStr t ++ '"' :: r) = some (t, r) := by
  intro t
  induction t with
  | nil =>
    intro fuel r h
    obtain ⟨f, rfl⟩ : ∃ f, fuel = f + 1 := ⟨fuel - 1, by omega⟩
    rw [escapeStr]
    simp [parseStrBodyF]
  | cons c t ih =>
    intro fuel r h
    obtain ⟨f, rfl⟩ : ∃ f, fuel = f + 1 := ⟨fuel - 1, by omega⟩
    have hf : t.length < f := by simp at h; omega
    rw [escapeStr, List.append_assoc]
    by_cases h1 : c = '"'
    · subst h1
      rw [show escChar '"' = ['\\', '"'] from rfl]
      simp only [List.cons_append, List.nil_append]
      rw [parseStrBodyF]
      simp [escPart, escDecode, ih f r hf]
    · by_cases h2 : c = '\\'
      · subst h2
        rw [show escChar '\\' = ['\\', '\\'] from rfl]
        simp only [List.cons_append, List.nil_append]
        rw [parseStrBodyF]
        simp [escPart, escDecode, ih f r hf]
      · by_cases h3 : c = '\n'
        · subst h3
          rw [show escChar '\n' = ['\\', 'n'] from rfl]
          simp only [List.cons_append, List.nil_append]
          rw [parseStrBodyF]
          simp [escPart, escDecode, ih f r hf]
        · by_cases h4 : c = '\t'
          · subst h4
            rw [show escChar '\t' = ['\\', 't'] from rfl]
            simp only [List.cons_append, List.nil_append]
            rw [parseStrBodyF]
            simp [escPart, escDecode, ih f r hf]
          · by_cases h5 : c = '\r'
            · subst h5
              rw [show escChar '\r' = ['\\', 'r'] from rfl]
              simp only [List.cons_append, List.nil_append]
              rw [parseStrBodyF]
              simp [escPart, escDecode, ih f r hf]
            · by_cases h6 : c.toNat < 32
              · rw [escChar, if_neg h1, if_neg h2, if_neg h3, if_neg h4, if_neg h5,
                  if_pos h6]
                simp only [List.cons_append, List.nil_append]
                rw [parseStrBodyF]
                have hv1 : hexVal (hexDigitChar (c.toNat / 16)) = some (c.toNat / 16) :=
                  hexVal_hexDigitChar (by omega)
                have hv2 : hexVal (hexDigitChar (c.toNat % 16)) = some (c.toNat % 16) :=
                  hexVal_hexDigitChar (by omega)
                simp [escPart, parseHex4, hv1, hv2, ih f r hf,
                  show hexVal '0' = some 0 from rfl]
                have hval : c.toNat / 16 * 16 + c.toNat % 16 = c.toNat := by omega
                rw [hval, Char.ofNat_toNat]
              · rw [escChar, if_neg h1, if_neg h2, if_neg h3, if_neg h4, if_neg h5,
                  if_neg h6]
                simp only [List.cons_append, List.nil_append]
                rw [parseStrBodyF]
                rw [if_neg h1, if_neg h2, ih f r hf]
                rfl

lemma length_le_escapeStr (t : Str) : t.length ≤ (escapeStr t).length := by
  induction t with
  | nil => simp [escapeStr]
  | cons c t ih =>
    rw [escapeStr]
    have : 1 ≤ (escChar c).length := by
      rw [escChar]
      repeat' split
      all_goals simp
    simp only [List.length_append, List.length_cons]
    omega

lemma parseStrBody_escape (t r : Str) :
    parseStrBody (escapeStr t ++ '"' :: r) = some (t, r) := by
  unfold parseStrBody
  apply parseStrBodyF_escape
  have := length_le_escapeStr t
  simp only [List.length_append, List.length_cons]
  omega

lemma countV_pos (v : Json) : 1 ≤ countV v := by
  cases v <;> simp [countV]

lemma stringify_head_spec (v : Json) :
    ∃ c t, Json.stringify v = c :: t ∧ isJsWs c = false ∧
      c ≠ ']' ∧ c ≠ '}' ∧ c ≠ ',' ∧ c ≠ ':' := by
  cases v with
  | null => exact ⟨'n', ['u', 'l', 'l'], rfl, by decide, by decide, by decide, by decide, by decide⟩
  | bool b =>
    cases b with
    | true => exact ⟨'t', ['r', 'u', 'e'], rfl, by decide, by decide, by decide, by decide, by decide⟩
    | false =>
      exact ⟨'f', ['a', 'l', 's', 'e'], rfl, by decide, by decide, by decide, by decide, by decide⟩
  | num n =>
    rw [Json.stringify, intToStr]
    by_cases hn : n < 0
    · exact ⟨'-', natToDigits n.natAbs, by rw [if_pos hn], by decide, by decide, by decide,
        by decide, by decide⟩
    · obtain ⟨c, cs, hds, hdig⟩ := natToDigits_cons n.toNat
      simp only [isDigitC, Bool.and_eq_true, decide_eq_true_eq] at hdig
      refine ⟨c, cs, by rw [if_neg hn, hds], isJsWs_of_digit ?_, ?_, ?_, ?_, ?_⟩
      · simp [isDigitC]; omega
      · exact char_ne_of_toNat_ne (by rw [show (']').toNat = 93 from rfl]; omega)
      · exact char_ne_of_toNat_ne (by rw [show ('}').toNat = 125 from rfl]; omega)
      · exact char_ne_of_toNat_ne (by rw [show (',').toNat = 44 from rfl]; omega)
      · exact char_ne_of_toNat_ne (by rw [show (':').toNat = 58 from rfl]; omega)
  | str s => exact ⟨'"', escapeStr s ++ ['"'], rfl, by decide, by decide, by decide, by decide,
      by decide⟩
  | arr es => exact ⟨'[', stringifyElems es ++ [']'], rfl, by decide, by decide, by decide,
      by decide, by decide⟩
  | obj fs => exact ⟨'{', stringifyFields fs ++ ['}'], rfl, by decide, by decide, by decide,
      by decide, by decide⟩

lemma skipWs_stringify_app (v : Json) (r : Str) :
    skipWs (Json.stringify v ++ r) = Json.stringify v ++ r := by
  obtain ⟨c, t, hst, hws, -⟩ := stringify_head_spec v
  rw [hst, List.cons_append, skipWs_cons_not_ws hws]

lemma leadsWith_cons_ne {p c : Char} (ps cs : Str) (h : ¬p = c) :
    leadsWith (p :: ps) (c :: cs) = false := by
  simp [leadsWith, h]

lemma num_head_spec (n : Int) :
    ∃ c t, intToStr n = c :: t ∧ isJsWs c = false ∧ c ≠ '"' ∧ c ≠ '[' ∧ c ≠ '{' ∧
      c ≠ 'n' ∧ c ≠ 't' ∧ c ≠ 'f' := by
  rw [intToStr]
  by_cases hn : n < 0
  · exact ⟨'-', natToDigits n.natAbs, by rw [if_pos hn], by decide, by decide, by decide,
      by decide, by decide, by decide, by decide⟩
  · obtain ⟨c, cs, hds, hdig⟩ := natToDigits_cons n.toNat
    simp only [isDigitC, Bool.and_eq_true, decide_eq_true_eq] at hdig
    refine ⟨c, cs, by rw [if_neg hn, hds], isJsWs_of_digit ?_, ?_, ?_, ?_, ?_, ?_, ?_⟩
    · simp [isDigitC]; omega
    · exact char_ne_of_toNat_ne (by rw [show ('"').toNat = 34 from rfl]; omega)
    · exact char_ne_of_toNat_ne (by rw [show ('[').toNat = 91 from rfl]; omega)
    · exact char_ne_of_toNat_ne (by rw [show ('{').toNat = 123 from rfl]; omega)
    · exact char_ne_of_toNat_ne (by rw [show ('n').toNat = 110 from rfl]; omega)
    · exact char_ne_of_toNat_ne (by rw [show ('t').toNat = 116 from rfl]; omega)
    · exact char_ne_of_toNat_ne (by rw [show ('f').toNat = 102 from rfl]; omega)

lemma parseElems1_round (F : Nat)
    (hIH : ∀ g, g < F → ∀ v r, countV v ≤ g → headNot isDigitC r →
      parseV g (Json.stringify v ++ r) = some (v, r)) :
    ∀ es e fuel rest, fuel < F → countElems (e :: es) ≤ fuel →
      parseElems1 fuel (stringifyElems (e :: es) ++ ']' :: rest) = some (e :: es, rest) := by
  intro es
  induction es with
  | nil =>
    intro e fuel rest hF hc
    simp only [countElems, countV] at hc
    obtain ⟨f, rfl⟩ : ∃ f, fuel = f + 1 := ⟨fuel - 1, by omega⟩
    have hvp := hIH f (by omega) e (']' :: rest) (by omega) (headNot_cons (by decide))
    rw [parseElems1, stringifyElems, stringifyElemsTail]
    simp only [List.append_nil, elemsStep, hvp]
    rw [skipWs_cons_not_ws (by decide)]
    simp
  | cons e2 es2 ih =>
    intro e fuel rest hF hc
    simp only [countElems] at hc
    obtain ⟨f, rfl⟩ : ∃ f, fuel = f + 1 := ⟨fuel - 1, by omega⟩
    have hvp := hIH f (by omega) e (stringifyElemsTail (e2 :: es2) ++ ']' :: rest)
      (by omega)
      (by rw [stringifyElemsTail]; exact headNot_cons (by decide))
    rw [parseElems1, stringifyElems, List.append_assoc]
    simp only [elemsStep, hvp]
    rw [stringifyElemsTail]
    simp only [List.cons_append]
    rw [skipWs_cons_not_ws (by decide)]
    simp only [List.head?_cons, List.tail_cons, Option.some.injEq, if_true,
      List.append_assoc]
    have h2 := ih e2 f rest (by omega) (by simp only [countElems]; omega)
    rw [stringifyElems, List.append_assoc] at h2
    rw [h2]
    simp

lemma parseFields1_round (F : Nat)
    (hIH : ∀ g, g < F → ∀ v r, countV v ≤ g → headNot isDigitC r →
      parseV g (Json.stringify v ++ r) = some (v, r)) :
    ∀ fs k v fuel rest, fuel < F → countFields ((k, v) :: fs) ≤ fuel →
      parseFields1 fuel (stringifyFields ((k, v) :: fs) ++ '}' :: rest) =
        some ((k, v) :: fs, rest) := by
  intro fs
  induction fs with
  | nil =>
    intro k v fuel rest hF hc
    simp only [countFields] at hc
    obtain ⟨f, rfl⟩ : ∃ f, fuel = f + 1 := ⟨fuel - 1, by omega⟩
    have hvp := hIH f (by omega) v ('}' :: rest) (by omega) (headNot_cons (by decide))
    rw [parseFields1, stringifyFields, stringifyFieldsTail]
    simp only [List.append_nil, List.cons_append, List.append_assoc, fieldsStep]
    rw [skipWs_cons_not_ws (by decide)]
    simp only [List.head?_cons, List.tail_cons, Option.some.injEq, if_true]
    simp only [parseStrBody_escape]
    rw [skipWs_cons_not_ws (by decide)]
    simp only [List.head?_cons, List.tail_cons, Option.some.injEq, if_true]
    simp only [hvp]
    rw [skipWs_cons_not_ws (by decide)]
    simp
  | cons kv2 fs2 ih =>
    intro k v fuel rest hF hc
    obtain ⟨k2, v2⟩ := kv2
    simp only [countFields] at hc
    obtain ⟨f, rfl⟩ : ∃ f, fuel = f + 1 := ⟨fuel - 1, by omega⟩
    have hvp := hIH f (by omega) v (stringifyFieldsTail ((k2, v2) :: fs2) ++ '}' :: rest)
      (by omega)
      (by rw [stringifyFieldsTail]; exact headNot_cons (by decide))
    rw [parseFields1, stringifyFields]
    simp only [List.cons_append, List.append_assoc] at hvp ⊢
    simp only [fieldsStep]
    rw [skipWs_cons_not_ws (by decide)]
    simp only [List.head?_cons, List.tail_cons, Option.some.injEq, if_true]
    simp only [parseStrBody_escape]
    rw [skipWs_cons_not_ws (by decide)]
    simp only [List.head?_cons, List.tail_cons, Option.some.injEq, if_true]
    simp only [hvp]
    rw [stringifyFieldsTail]
    simp only [List.cons_append]
    rw [skipWs_cons_not_ws (by decide)]
    simp only [List.head?_cons, List.tail_cons, Option.some.injEq, if_true,
      List.append_assoc]
    have h2 := ih k2 v2 f rest (by omega) (by simp only [countFields]; omega)
    rw [stringifyFields] at h2
    simp only [List.cons_append, List.append_assoc] at h2
    simp only [List.cons_append, List.append_assoc]
    rw [h2]
    simp

theorem parseV_round :
    ∀ fuel v rest, countV v ≤ fuel → headNot isDigitC rest →
      parseV fuel (Json.stringify v ++ rest) = some (v, rest) := by
  intro fuel
  induction fuel using Nat.strong_induction_on with
  | _ F IH =>
    intro v rest hc hr
    obtain ⟨f, rfl⟩ : ∃ f, F = f + 1 := ⟨F - 1, by have := countV_pos v; omega⟩
    rw [parseV, skipWs_stringify_app]
    cases v with
    | null =>
      rw [show Json.stringify Json.null = ['n', 'u', 'l', 'l'] from rfl]
      simp [valCore, leadsWith]
    | bool b =>
      cases b with
      | true =>
        rw [show Json.stringify (Json.bool true) = ['t', 'r', 'u', 'e'] from rfl]
        simp [valCore, leadsWith]
      | false =>
        rw [show Json.stringify (Json.bool false) = ['f', 'a', 'l', 's', 'e'] from rfl]
        simp [valCore, leadsWith]
    | num n =>
      obtain ⟨c, t, hst, hws, hq, hb, hbr, hn2, ht2, hf2⟩ := num_head_spec n
      rw [show Json.stringify (Json.num n) = intToStr n from rfl, hst]
      simp only [List.cons_append, valCore, List.head?_cons]
      rw [if_neg (by simp [hq]), if_neg (by simp [hb]), if_neg (by simp [hbr])]
      rw [leadsWith_cons_ne _ _ (fun h => hn2 h.symm),
        leadsWith_cons_ne _ _ (fun h => ht2 h.symm),
        leadsWith_cons_ne _ _ (fun h => hf2 h.symm)]
      simp only [Bool.false_eq_true, if_false]
      rw [← List.cons_append, ← hst]
      exact parseNum_round n hr
    | str s =>
      rw [show Json.stringify (Json.str s) = '"' :: (escapeStr s ++ ['"']) from rfl]
      simp only [List.cons_append, List.append_assoc, List.singleton_append]
      simp [valCore, parseStrBody_escape]
    | arr es =>
      cases es with
      | nil =>
        rw [show Json.stringify (Json.arr []) = ['[', ']'] from rfl]
        simp only [List.cons_append, List.nil_append]
        simp only [valCore, List.head?_cons, List.tail_cons]
        rw [if_neg (by simp), if_pos trivial, skipWs_cons_not_ws (by decide)]
        simp
      | cons e es' =>
        rw [show Json.stringify (Json.arr (e :: es')) =
          '[' :: (stringifyElems (e :: es') ++ [']']) from rfl]
        rw [stringifyElems]
        obtain ⟨c, t, hst, hws, hrb, hrc, hcm, hcl⟩ := stringify_head_spec e
        rw [hst]
        simp only [List.cons_append, List.append_assoc, List.singleton_append]
        simp only [valCore, List.head?_cons, List.tail_cons]
        rw [if_neg (by simp), if_pos trivial, skipWs_cons_not_ws hws]
        simp only [List.head?_cons]
        rw [if_neg (by simp [hrb])]
        have hel := parseElems1_round (f + 1) (fun g hg => IH g hg) es' e f rest
          (by omega) (by simp only [countV] at hc; omega)
        rw [stringifyElems, hst] at hel
        simp only [List.cons_append, List.append_assoc] at hel
        simp only [List.nil_append]
        rw [hel]
        simp
    | obj fs =>
      cases fs with
      | nil =>
        rw [show Json.stringify (Json.obj []) = ['{', '}'] from rfl]
        simp only [List.cons_append, List.nil_append]
        simp only [valCore, List.head?_cons, List.tail_cons]
        rw [if_neg (by simp), if_neg (by simp), if_pos trivial, skipWs_cons_not_ws (by decide)]
        simp
      | cons kv fs' =>
        obtain ⟨k, v⟩ := kv
        rw [show Json.stringify (Json.obj ((k, v) :: fs')) =
          '{' :: (stringifyFields ((k, v) :: fs') ++ ['}']) from rfl]
        rw [stringifyFields]
        simp only [List.cons_append, List.append_assoc, List.singleton_append]
        simp only [valCore, List.head?_cons, List.tail_cons]
        rw [if_neg (by simp), if_neg (by simp), if_pos trivial, skipWs_cons_not_ws (by decide)]
        simp only [List.head?_cons]
        rw [if_neg (by simp)]
        have hfl := parseFields1_round (f + 1) (fun g hg => IH g hg) fs' k v f rest
          (by omega) (by simp only [countV] at hc; omega)
        rw [stringifyFields] at hfl
        simp only [List.cons_append, List.append_assoc] at hfl
        simp only [List.nil_append]
        rw [hfl]
        simp

lemma countV_le_countElems_of_mem {e : Json} : ∀ {es : List Json}, e ∈ es →
    countV e ≤ countElems es := by
  intro es
  induction es with
  | nil => intro h; cases h
  | cons e2 es2 ih =>
    intro h
    rcases List.mem_cons.1 h with h1 | h1
    · subst h1; simp only [countElems]; omega
    · have := ih h1; simp only [countElems]; omega

lemma countV_le_countFields_of_mem {k : Str} {v : Json} :
    ∀ {fs : List (Str × Json)}, (k, v) ∈ fs → countV v ≤ countFields fs := by
  intro fs
  induction fs with
  | nil => intro h; cases h
  | cons kv2 fs2 ih =>
    obtain ⟨k2, v2⟩ := kv2
    intro h
    rcases List.mem_cons.1 h with h1 | h1
    · rw [Prod.mk.injEq] at h1
      obtain ⟨-, h1⟩ := h1
      subst h1
      simp only [countFields]
      omega
    · have := ih h1; simp only [countFields]; omega

lemma countElemsTail_le (es : List Json)
    (h : ∀ e ∈ es, countV e ≤ (Json.stringify e).length) :
    countElems es ≤ (stringifyElemsTail es).length := by
  induction es with
  | nil => simp [countElems, stringifyElemsTail]
  | cons e es' ih =>
    have h1 := h e (by simp)
    have h2 := ih (fun e' he' => h e' (by simp [he']))
    simp only [countElems, stringifyElemsTail, List.length_cons, List.length_append]
    omega

lemma countFieldsTail_le (fs : List (Str × Json))
    (h : ∀ k v, (k, v) ∈ fs → countV v ≤ (Json.stringify v).length) :
    countFields fs ≤ (stringifyFieldsTail fs).length := by
  induction fs with
  | nil => simp [countFields, stringifyFieldsTail]
  | cons kv fs' ih =>
    obtain ⟨k, v⟩ := kv
    have h1 := h k v (by simp)
    have h2 := ih (fun k' v' hm => h k' v' (by simp [hm]))
    simp only [countFields, stringifyFieldsTail, List.length_cons, List.length_append]
    omega

lemma countV_le_stringify_length (v : Json) : countV v ≤ (Json.stringify v).length := by
  suffices h : ∀ N v, countV v ≤ N → countV v ≤ (Json.stringify v).length from
    h (countV v) v le_rfl
  intro N
  induction N using Nat.strong_induction_on with
  | _ N IH =>
    intro v hv
    cases v with
    | null => decide
    | bool b => cases b <;> decide
    | num n =>
      rw [show Json.stringify (Json.num n) = intToStr n from rfl, intToStr]
      have := List.length_pos.2 (natToDigits_ne_nil n.natAbs)
      have := List.length_pos.2 (natToDigits_ne_nil n.toNat)
      split <;> simp [countV] <;> omega
    | str s =>
      simp [countV, Json.stringify]
    | arr es =>
      have hpt : ∀ e ∈ es, countV e ≤ (Json.stringify e).length := by
        intro e he
        have hlt : countV e < countV (Json.arr es) := by
          have := countV_le_countElems_of_mem he
          simp only [countV]
          omega
        exact IH (countV e) (by omega) e le_rfl
      cases es with
      | nil => decide
      | cons e es' =>
        have htail := countElemsTail_le es' (fun e' he' => hpt e' (by simp [he']))
        have hhead := hpt e (by simp)
        simp only [countV, countElems, Json.stringify, stringifyElems, List.length_cons,
          List.length_append]
        omega
    | obj fs =>
      have hpt : ∀ k v', (k, v') ∈ fs → countV v' ≤ (Json.stringify v').length := by
        intro k v' hm
        have hlt : countV v' < countV (Json.obj fs) := by
          have := countV_le_countFields_of_mem hm
          simp only [countV]
          omega
        exact IH (countV v') (by omega) v' le_rfl
      cases fs with
      | nil => decide
      | cons kv fs' =>
        obtain ⟨k, v'⟩ := kv
        have htail := countFieldsTail_le fs' (fun k' v2 hm => hpt k' v2 (by simp [hm]))
        have hhead := hpt k v' (by simp)
        simp only [countV, countFields, Json.stringify, stringifyFields, List.length_cons,
          List.length_append]
        omega

theorem Json.parse_stringify (v : Json) : Json.parse (Json.stringify v) = some v := by
  unfold Json.parse
  have h := parseV_round ((Json.stringify v).length + 1) v []
    (by have := countV_le_stringify_length v; omega) headNot_nil
  rw [List.append_nil] at h
  rw [h]
  simp [skipWs]

/-! ### Facts about jsIndexOf and leadsWith -/

lemma leadsWith_app_self (pat x : Str) : leadsWith pat (pat ++ x) = true := by
  induction pat with
  | nil => rfl
  | cons p ps ih => simp [leadsWith, ih]

lemma leadsWith_length {pat s : Str} (h : leadsWith pat s = true) :
    pat.length ≤ s.length := by
  induction pat generalizing s with
  | nil => simp
  | cons p ps ih =>
    cases s with
    | nil => simp [leadsWith] at h
    | cons c cs =>
      simp only [leadsWith, Bool.and_eq_true] at h
      have := ih h.2
      simp only [List.length_cons]
      omega

lemma leadsWith_get {pat s : Str} (h : leadsWith pat s = true) :
    ∀ j (hp : j < pat.length) (hs : j < s.length), s.get ⟨j, hs⟩ = pat.get ⟨j, hp⟩ := by
  induction pat generalizing s with
  | nil => intro j hp; simp at hp
  | cons p ps ih =>
    cases s with
    | nil => simp [leadsWith] at h
    | cons c cs =>
      simp only [leadsWith, Bool.and_eq_true, decide_eq_true_eq] at h
      intro j hp hs
      cases j with
      | zero => simp [h.1]
      | succ j =>
        simp only [List.get_cons_succ]
        exact ih h.2 j (by simp at hp; omega) (by simp at hs; omega)

lemma leadsWith_append_of_le {pat a : Str} (b : Str) (h : pat.length ≤ a.length) :
    leadsWith pat (a ++ b) = leadsWith pat a := by
  induction pat generalizing a with
  | nil => simp [leadsWith]
  | cons p ps ih =>
    cases a with
    | nil => simp at h
    | cons c cs =>
      simp only [List.cons_append, leadsWith]
      congr 1
      exact ih (by simp at h; omega)

lemma leadsWith_of_take {pat x : Str} {k : Nat}
    (h : leadsWith pat (x.take k) = true) : leadsWith pat x = true := by
  induction pat generalizing x k with
  | nil => rfl
  | cons p ps ih =>
    cases x with
    | nil => simp at h; simp [h]
    | cons c cs =>
      cases k with
      | zero => simp [leadsWith] at h
      | succ k =>
        simp only [List.take_succ_cons, leadsWith, Bool.and_eq_true] at h
        simp only [leadsWith, Bool.and_eq_true]
        exact ⟨h.1, ih h.2⟩

lemma jsIndexOf_some {pat s : Str} :
    ∀ {n : Nat}, jsIndexOf pat s = some n →
      leadsWith pat (s.drop n) = true ∧ ∀ i < n, leadsWith pat (s.drop i) = false := by
  induction s with
  | nil =>
    intro n h
    rw [jsIndexOf] at h
    by_cases hp : pat = []
    · simp [hp] at h
      subst h
      simp [hp, leadsWith]
    · simp [hp] at h
  | cons c cs ih =>
    intro n h
    rw [jsIndexOf] at h
    by_cases hl : leadsWith pat (c :: cs) = true
    · simp [hl] at h
      subst h
      simp [hl]
    · simp [hl] at h
      obtain ⟨m, hm, rfl⟩ := h
      obtain ⟨h1, h2⟩ := ih hm
      refine ⟨h1, ?_⟩
      intro i hi
      cases i with
      | zero => simpa using hl
      | succ i =>
        rw [List.drop_succ_cons]
        exact h2 i (by omega)

lemma jsIndexOf_none {pat s : Str} (hp : pat ≠ []) (h : jsIndexOf pat s = none) :
    ∀ i, leadsWith pat (s.drop i) = false := by
  induction s with
  | nil =>
    intro i
    rw [List.drop_nil]
    cases pat with
    | nil => exact absurd rfl hp
    | cons p ps => rfl
  | cons c cs ih =>
    intro i
    rw [jsIndexOf] at h
    by_cases hl : leadsWith pat (c :: cs) = true
    · simp [hl] at h
    · simp [hl] at h
      cases i with
      | zero => simpa using hl
      | succ i =>
        rw [List.drop_succ_cons]
        exact ih h i

lemma jsIndexOf_first {pat : Str} :
    ∀ {n : Nat} {s : Str}, leadsWith pat (s.drop n) = true →
      (∀ i < n, leadsWith pat (s.drop i) = false) → jsIndexOf pat s = some n := by
  intro n
  induction n with
  | zero =>
    intro s hpre _
    rw [List.drop_zero] at hpre
    cases s with
    | nil =>
      cases pat with
      | nil => rfl
      | cons p ps => simp [leadsWith] at hpre
    | cons c cs => simp [jsIndexOf, hpre]
  | succ n ih =>
    intro s hpre hbefore
    cases s with
    | nil =>
      have h0 := hbefore 0 (by omega)
      rw [List.drop_nil] at hpre
      rw [List.drop_nil] at h0
      rw [h0] at hpre
      cases hpre
    | cons c cs =>
      have h0 := hbefore 0 (by omega)
      rw [List.drop_zero] at h0
      rw [jsIndexOf, if_neg (by simp [h0])]
      rw [List.drop_succ_cons] at hpre
      rw [ih hpre (fun i hi => by
        have := hbefore (i + 1) (by omega)
        rwa [List.drop_succ_cons] at this)]
      rfl

lemma leadsWith_getElem {pat s : Str} (h : leadsWith pat s = true) (j : Nat)
    (hp : j < pat.length) (hs : j < s.length) : s[j] = pat[j] := by
  have := leadsWith_get h j hp hs
  simpa [List.get_eq_getElem] using this

lemma sentinel_length : sentinel.length = 16 := rfl

lemma nl_not_mem_sentinel : ¬('\n' ∈ sentinel) := by decide

lemma META_SEPARATOR_eq : META_SEPARATOR = '\n' :: '\n' :: (sentinel ++ ['\n']) := rfl

lemma no_match_into_sep (clean tail : Str)
    (hclean : ∀ i, leadsWith sentinel (clean.drop i) = false) :
    ∀ i, i < clean.length + 2 →
      leadsWith sentinel ((clean ++ '\n' :: '\n' :: tail).drop i) = false := by
  intro i hi
  by_contra hcon
  rw [Bool.not_eq_false] at hcon
  by_cases hA : i + 16 ≤ clean.length
  · rw [List.drop_append_of_le_length (by omega)] at hcon
    rw [leadsWith_append_of_le _
      (by rw [sentinel_length, List.length_drop]; omega)] at hcon
    rw [hclean i] at hcon
    cases hcon
  · have hfl : (clean ++ '\n' :: '\n' :: tail).length = clean.length + 2 + tail.length := by
      simp
      omega
    have hplt : ∀ p, p < clean.length + 2 →
        i ≤ p → p - i < 16 → ((clean ++ '\n' :: '\n' :: tail)).get? p = some '\n' →
        False := by
      intro p hp hip hjp hchar
      have hfull : p < (clean ++ '\n' :: '\n' :: tail).length := by omega
      have hddef : i + (p - i) = p := by omega
      have hds : p - i < ((clean ++ '\n' :: '\n' :: tail).drop i).length := by
        rw [List.length_drop]
        omega
      have h2 : ((clean ++ '\n' :: '\n' :: tail).drop i)[p - i] =
          getElem (clean ++ '\n' :: '\n' :: tail) p hfull := by
        rw [List.getElem_drop]
        congr 1
      have h3 := leadsWith_getElem hcon (p - i) (by rw [sentinel_length]; omega) hds
      rw [h2] at h3
      rw [List.get?_eq_getElem?, List.getElem?_eq_getElem hfull] at hchar
      have h4 : sentinel[p - i] = '\n' := by
        rw [← h3]
        exact Option.some.inj hchar
      exact nl_not_mem_sentinel (h4 ▸ List.getElem_mem _)
    by_cases hB : i ≤ clean.length
    · refine hplt clean.length (by omega) hB (by omega) ?_
      rw [List.get?_eq_getElem?,
        List.getElem?_eq_getElem (by rw [hfl]; omega)]
      rw [List.getElem_append_right (le_refl clean.length)]
      simp
    · refine hplt (clean.length + 1) (by omega) (by omega) (by omega) ?_
      rw [List.get?_eq_getElem?,
        List.getElem?_eq_getElem (by rw [hfl]; omega)]
      rw [List.getElem_append_right (by omega)]
      simp

lemma jsIndexOf_setMeta (clean json : Str)
    (hclean : ∀ i, leadsWith sentinel (clean.drop i) = false) :
    jsIndexOf sentinel (clean ++ '\n' :: '\n' :: (sentinel ++ '\n' :: json)) =
      some (clean.length + 2) := by
  apply jsIndexOf_first
  · have hsplit : clean ++ '\n' :: '\n' :: (sentinel ++ '\n' :: json) =
        (clean ++ ['\n', '\n']) ++ (sentinel ++ '\n' :: json) := by
      simp
    have hdrop : (clean ++ '\n' :: '\n' :: (sentinel ++ '\n' :: json)).drop
        (clean.length + 2) = sentinel ++ '\n' :: json := by
      rw [hsplit, show clean.length + 2 = (clean ++ ['\n', '\n']).length by simp]
      exact List.drop_left _ _
    rw [hdrop]
    exact leadsWith_app_self _ _
  · exact no_match_into_sep clean _ hclean

lemma noOccur_drop {pat x : Str} (h : ∀ i, leadsWith pat (x.drop i) = false) (a : Nat) :
    ∀ i, leadsWith pat ((x.drop a).drop i) = false := by
  intro i
  rw [List.drop_drop]
  exact h _

lemma noOccur_take {pat x : Str} (h : ∀ i, leadsWith pat (x.drop i) = false) (k : Nat) :
    ∀ i, leadsWith pat ((x.take k).drop i) = false := by
  intro i
  rw [List.drop_take]
  by_contra hcon
  rw [Bool.not_eq_false] at hcon
  have := leadsWith_of_take hcon
  rw [h i] at this
  cases this

lemma dropWhile_eq_drop (p : Char → Bool) (l : Str) :
    l.dropWhile p = l.drop (l.takeWhile p).length := by
  induction l with
  | nil => rfl
  | cons c cs ih =>
    by_cases hc : p c = true
    · simp [List.dropWhile_cons, List.takeWhile_cons, hc, ih]
    · simp [List.dropWhile_cons, List.takeWhile_cons, hc]

lemma jsTrimEnd_eq_take (x : Str) : ∃ k, jsTrimEnd x = x.take k := by
  refine ⟨x.length - (x.reverse.takeWhile isJsWs).length, ?_⟩
  rw [jsTrimEnd, dropWhile_eq_drop, List.reverse_drop, List.reverse_reverse,
    List.length_reverse]

lemma noOccur_jsTrim {pat x : Str} (h : ∀ i, leadsWith pat (x.drop i) = false) :
    ∀ i, leadsWith pat ((jsTrim x).drop i) = false := by
  rw [jsTrim, jsTrimStart, dropWhile_eq_drop]
  obtain ⟨k, hk⟩ := jsTrimEnd_eq_take (x.drop (x.takeWhile isJsWs).length)
  rw [hk]
  exact noOccur_take (noOccur_drop h _) k

lemma clean_noOccur (d : Str) :
    ∀ i, leadsWith sentinel ((getCleanDescription d).drop i) = false := by
  rw [getCleanDescription]
  by_cases hd : d = []
  · rw [if_pos hd]
    intro i
    rw [List.drop_nil]
    decide
  · rw [if_neg hd]
    cases hidx : jsIndexOf sentinel d with
    | none => exact jsIndexOf_none (by decide) hidx
    | some idx =>
      obtain ⟨-, h2⟩ := jsIndexOf_some hidx
      apply noOccur_jsTrim
      intro i
      by_cases hi : i < idx
      · by_contra hcon
        rw [Bool.not_eq_false] at hcon
        rw [List.drop_take] at hcon
        have := leadsWith_of_take hcon
        rw [h2 i hi] at this
        cases this
      · rw [List.drop_take, show idx - i = 0 by omega, List.take_zero]
        decide

lemma natToDigits_last (m : Nat) :
    ∃ t c, natToDigits m = t ++ [c] ∧ isDigitC c = true := by
  rw [natToDigits]
  split
  · next h =>
    refine ⟨[], Char.ofNat (48 + m), by simp, ?_⟩
    simp [isDigitC, toNat_ofNat_digit h]
    omega
  · next h =>
    refine ⟨natToDigits (m / 10), Char.ofNat (48 + m % 10), rfl, ?_⟩
    have hm : m % 10 < 10 := Nat.mod_lt _ (by omega)
    simp [isDigitC, toNat_ofNat_digit hm]
    omega

lemma stringify_last_spec (v : Json) :
    ∃ t c, Json.stringify v = t ++ [c] ∧ isJsWs c = false := by
  cases v with
  | null => exact ⟨['n', 'u', 'l'], 'l', rfl, by decide⟩
  | bool b =>
    cases b with
    | true => exact ⟨['t', 'r', 'u'], 'e', rfl, by decide⟩
    | false => exact ⟨['f', 'a', 'l', 's'], 'e', rfl, by decide⟩
  | num n =>
    rw [show Json.stringify (Json.num n) = intToStr n from rfl, intToStr]
    by_cases hn : n < 0
    · obtain ⟨t, c, hd, hdig⟩ := natToDigits_last n.natAbs
      exact ⟨'-' :: t, c, by rw [if_pos hn, hd]; rfl, isJsWs_of_digit hdig⟩
    · obtain ⟨t, c, hd, hdig⟩ := natToDigits_last n.toNat
      exact ⟨t, c, by rw [if_neg hn, hd], isJsWs_of_digit hdig⟩
  | str s =>
    exact ⟨'"' :: escapeStr s, '"', by rw [Json.stringify]; rfl, by decide⟩
  | arr es =>
    exact ⟨'[' :: stringifyElems es, ']', by rw [Json.stringify]; rfl, by decide⟩
  | obj fs =>
    exact ⟨'{' :: stringifyFields fs, '}', by rw [Json.stringify]; rfl, by decide⟩

lemma jsTrimEnd_app_not_ws {t : Str} {c : Char} (h : isJsWs c = false) :
    jsTrimEnd (t ++ [c]) = t ++ [c] := by
  rw [jsTrimEnd, List.reverse_append]
  simp [List.dropWhile_cons, h]

lemma jsTrim_stringify_after_nl (m : Json) :
    jsTrim ('\n' :: Json.stringify m) = Json.stringify m := by
  rw [jsTrim, jsTrimStart, List.dropWhile_cons]
  simp only [show isJsWs '\n' = true from rfl, if_true]
  obtain ⟨c, t, hst, hws, -⟩ := stringify_head_spec m
  rw [hst, List.dropWhile_cons]
  simp only [hws, Bool.false_eq_true, if_false]
  rw [← hst]
  obtain ⟨t2, c2, hst2, hws2⟩ := stringify_last_spec m
  rw [hst2]
  exact jsTrimEnd_app_not_ws hws2

theorem parseAgentMeta_setAgentMeta (d : Str) (m : Json) :
    parseAgentMeta (setAgentMeta d m) = some m := by
  rw [setAgentMeta, META_SEPARATOR_eq]
  rw [show getCleanDescription d ++ ('\n' :: '\n' :: (sentinel ++ ['\n'])) ++
      Json.stringify m =
      getCleanDescription d ++ '\n' :: '\n' :: (sentinel ++ '\n' :: Json.stringify m)
    by simp]
  rw [parseAgentMeta]
  rw [if_neg (by simp)]
  simp only [jsIndexOf_setMeta _ _ (clean_noOccur d)]
  have hdrop : (getCleanDescription d ++
      '\n' :: '\n' :: (sentinel ++ '\n' :: Json.stringify m)).drop
      ((getCleanDescription d).length + 2 + 16) = '\n' :: Json.stringify m := by
    rw [show getCleanDescription d ++
        '\n' :: '\n' :: (sentinel ++ '\n' :: Json.stringify m) =
        (getCleanDescription d ++ '\n' :: '\n' :: sentinel) ++
          '\n' :: Json.stringify m by simp]
    rw [show (getCleanDescription d).length + 2 + 16 =
        (getCleanDescription d ++ '\n' :: '\n' :: sentinel).length by
      simp [sentinel_length]]
    exact List.drop_left _ _
  rw [hdrop, jsTrim_stringify_after_nl, Json.parse_stringify]

lemma jsTrimEnd_app_nlnl (y : Str) : jsTrimEnd (y ++ ['\n', '\n']) = jsTrimEnd y := by
  rw [jsTrimEnd, jsTrimEnd, List.reverse_append]
  simp [List.dropWhile_cons, show isJsWs '\n' = true from rfl]

lemma jsTrim_app_nlnl (x : Str) : jsTrim (x ++ ['\n', '\n']) = jsTrim x := by
  rw [jsTrim, jsTrim, jsTrimStart, jsTrimStart, List.dropWhile_append]
  by_cases hx : (x.dropWhile isJsWs).isEmpty
  · rw [if_pos hx]
    rw [List.isEmpty_iff] at hx
    rw [hx]
    rfl
  · rw [if_neg hx]
    exact jsTrimEnd_app_nlnl _

theorem getClean_setAgentMeta (d : Str) (m : Json) :
    getCleanDescription (setAgentMeta d m) = jsTrim (getCleanDescription d) := by
  rw [setAgentMeta, META_SEPARATOR_eq]
  rw [show getCleanDescription d ++ ('\n' :: '\n' :: (sentinel ++ ['\n'])) ++
      Json.stringify m =
      getCleanDescription d ++ '\n' :: '\n' :: (sentinel ++ '\n' :: Json.stringify m)
    by simp]
  rw [getCleanDescription]
  rw [if_neg (by simp)]
  simp only [jsIndexOf_setMeta _ _ (clean_noOccur d)]
  have htake : (getCleanDescription d ++
      '\n' :: '\n' :: (sentinel ++ '\n' :: Json.stringify m)).take
      ((getCleanDescription d).length + 2) = getCleanDescription d ++ ['\n', '\n'] := by
    rw [show getCleanDescription d ++
        '\n' :: '\n' :: (sentinel ++ '\n' :: Json.stringify m) =
        (getCleanDescription d ++ ['\n', '\n']) ++ (sentinel ++ '\n' :: Json.stringify m)
      by simp]
    rw [show (getCleanDescription d).length + 2 =
        (getCleanDescription d ++ ['\n', '\n']).length by simp]
    exact List.take_left _ _
  rw [htake, jsTrim_app_nlnl]

/-! ### Counting sentinel occurrences -/

lemma countOccur_eq_zero {pat s : Str} (h : ∀ i, leadsWith pat (s.drop i) = false) :
    countOccur pat s = 0 := by
  induction s with
  | nil =>
    have h0 := h 0
    rw [List.drop_nil] at h0
    simp [countOccur, h0]
  | cons c cs ih =>
    have h0 := h 0
    rw [List.drop_zero] at h0
    rw [countOccur, h0]
    simp only [Bool.false_eq_true, if_false, Nat.zero_add]
    exact ih (fun i => by have := h (i + 1); rwa [List.drop_succ_cons] at this)

lemma countOccur_cons_skip {pat : Str} {c : Char} {s : Str}
    (h : leadsWith pat (c :: s) = false) :
    countOccur pat (c :: s) = countOccur pat s := by
  rw [countOccur, h]
  simp

lemma countOccur_skip_lead {pat : Str} (a b : Str)
    (h : ∀ i, i < a.length → leadsWith pat ((a ++ b).drop i) = false) :
    countOccur pat (a ++ b) = countOccur pat b := by
  induction a with
  | nil => simp
  | cons c cs ih =>
    rw [List.cons_append,
      countOccur_cons_skip (by have := h 0 (by simp); simpa using this)]
    exact ih (fun i hi => by
      have := h (i + 1) (by simp; omega)
      rwa [List.cons_append, List.drop_succ_cons] at this)

lemma countOccur_eq_one {pat s : Str} (hpat : pat ≠ [])
    (h0 : leadsWith pat s = true)
    (h1 : ∀ i, 1 ≤ i → leadsWith pat (s.drop i) = false) :
    countOccur pat s = 1 := by
  cases s with
  | nil =>
    cases pat with
    | nil => exact absurd rfl hpat
    | cons p ps => simp [leadsWith] at h0
  | cons c cs =>
    rw [countOccur, h0]
    simp only [if_true]
    have : countOccur pat cs = 0 :=
      countOccur_eq_zero (fun i => by
        have := h1 (i + 1) (by omega)
        rwa [List.drop_succ_cons] at this)
    omega

lemma no_match_after_sentinel (json : Str)
    (hjson : ∀ i, leadsWith sentinel (json.drop i) = false) :
    ∀ i, 1 ≤ i → leadsWith sentinel ((sentinel ++ '\n' :: json).drop i) = false := by
  intro i hi
  by_contra hcon
  rw [Bool.not_eq_false] at hcon
  by_cases h17 : 17 ≤ i
  · rw [show sentinel ++ '\n' :: json = (sentinel ++ ['\n']) ++ json by simp] at hcon
    rw [show i = (sentinel ++ ['\n']).length + (i - 17) by simp [sentinel_length]; omega]
      at hcon
    rw [List.drop_append] at hcon
    rw [hjson _] at hcon
    cases hcon
  · have hds : 16 - i < ((sentinel ++ '\n' :: json).drop i).length := by
      have := leadsWith_length hcon
      rw [sentinel_length] at this
      omega
    have hfull : (16 : Nat) < (sentinel ++ '\n' :: json).length := by
      simp [sentinel_length]
    have h2 : ((sentinel ++ '\n' :: json).drop i)[16 - i] =
        getElem (sentinel ++ '\n' :: json) 16 hfull := by
      rw [List.getElem_drop]
      congr 1
      omega
    have h3 := leadsWith_getElem hcon (16 - i) (by rw [sentinel_length]; omega) hds
    rw [h2] at h3
    have h16 : getElem (sentinel ++ '\n' :: json) 16 hfull = '\n' := by
      rw [List.getElem_append_right (by rw [sentinel_length])]
      simp [sentinel_length]
    rw [h16] at h3
    exact nl_not_mem_sentinel (h3 ▸ List.getElem_mem _)

theorem countOccur_setAgentMeta (d : Str) (m : Json)
    (hm : ∀ i, leadsWith sentinel ((Json.stringify m).drop i) = false) :
    countOccur sentinel (setAgentMeta d m) = 1 := by
  rw [setAgentMeta, META_SEPARATOR_eq]
  rw [show getCleanDescription d ++ ('\n' :: '\n' :: (sentinel ++ ['\n'])) ++
      Json.stringify m =
      (getCleanDescription d ++ ['\n', '\n']) ++ (sentinel ++ '\n' :: Json.stringify m)
    by simp]
  rw [countOccur_skip_lead]
  · exact countOccur_eq_one (by decide) (leadsWith_app_self _ _)
      (no_match_after_sentinel _ hm)
  · intro i hi
    have hshape : (getCleanDescription d ++ ['\n', '\n']) ++
        (sentinel ++ '\n' :: Json.stringify m) =
        getCleanDescription d ++ '\n' :: '\n' :: (sentinel ++ '\n' :: Json.stringify m) := by
      simp
    rw [hshape]
    exact no_match_into_sep _ _ (clean_noOccur d) i
      (by simp at hi; omega)

/-! ### The claims -/

/-- C2: for every description `d` and every agent-meta record `m` (an
object of the JSON value model, which is exactly what survives
`JSON.stringify`/`JSON.parse`), decoding what `setAgentMeta` embeds into
the stripped description gives back `m`:
`parseAgentMeta (setAgentMeta (getCleanDescription d) m) = some m`. -/
theorem c2_meta_roundtrip (d : Str) (fields : List (Str × Json)) :
    parseAgentMeta (setAgentMeta (getCleanDescription d) (Json.obj fields)) =
      some (Json.obj fields) :=
  parseAgentMeta_setAgentMeta (getCleanDescription d) (Json.obj fields)

/-- C3 counterexample: the claim fails at the description `" x"` (no
sentinel, leading space) and the meta whose `lastError` string contains
the sentinel itself: the embedded description holds the sentinel twice,
and stripping the embedded description gives `"x"` while stripping the
original gives `" x"`. -/
theorem c3_counterexample :
    countOccur sentinel
      (setAgentMeta (str " x") (Json.obj [(str "lastError", Json.str sentinel)])) = 2 ∧
    getCleanDescription
      (setAgentMeta (str " x") (Json.obj [(str "lastError", Json.str sentinel)])) ≠
      getCleanDescription (str " x") := by
  constructor
  · decide
  · decide

/-- C3 amended: after any `setAgentMeta d m`, the result contains exactly
one occurrence of the sentinel provided the serialized meta contains
none; and stripping the embedded description yields the trimmed strip of
the original: `getCleanDescription (setAgentMeta d m) =
jsTrim (getCleanDescription d)` (so it equals `getCleanDescription d`
whenever that string carries no surrounding whitespace, in particular
whenever `d` contains the sentinel). -/
theorem c3_embed_shape (d : Str) (m : Json) :
    ((∀ i, leadsWith sentinel ((Json.stringify m).drop i) = false) →
      countOccur sentinel (setAgentMeta d m) = 1) ∧
    getCleanDescription (setAgentMeta d m) = jsTrim (getCleanDescription d) :=
  ⟨fun hm => countOccur_setAgentMeta d m hm, getClean_setAgentMeta d m⟩

lemma noOccur_of_countOccur {pat : Str} (hpat : pat ≠ []) :
    ∀ {s : Str}, countOccur pat s = 0 → ∀ i, leadsWith pat (s.drop i) = false := by
  intro s
  induction s with
  | nil =>
    intro _ i
    rw [List.drop_nil]
    cases pat with
    | nil => exact absurd rfl hpat
    | cons p ps => rfl
  | cons c cs ih =>
    intro h i
    rw [countOccur] at h
    have h1 : leadsWith pat (c :: cs) = false := by
      by_contra hcon
      rw [Bool.not_eq_false] at hcon
      rw [hcon] at h
      simp at h
    have h2 : countOccur pat cs = 0 := by
      rw [h1] at h
      simpa using h
    cases i with
    | zero => simpa using h1
    | succ i =>
      rw [List.drop_succ_cons]
      exact ih h2 i

/-- C3 amended, witness: at the description `"hello"` and the meta
`{status: "queued"}` the sentinel-free side condition holds and the
theorem applies. -/
theorem c3_embed_shape_witness :
    countOccur sentinel
      (setAgentMeta (str "hello") (Json.obj [(str "status", Json.str (str "queued"))])) = 1 ∧
    getCleanDescription
      (setAgentMeta (str "hello") (Json.obj [(str "status", Json.str (str "queued"))])) =
      jsTrim (getCleanDescription (str "hello")) :=
  ⟨(c3_embed_shape (str "hello") (Json.obj [(str "status", Json.str (str "queued"))])).1
      (noOccur_of_countOccur (by decide) (by decide)),
    (c3_embed_shape (str "hello") (Json.obj [(str "status", Json.str (str "queued"))])).2⟩

lemma lookup_setField_same (fs : List (Str × Json)) (k : Str) (v : Json) :
    lookupField (setField fs k v) k = some v := by
  induction fs with
  | nil => simp [setField, lookupField]
  | cons kv rest ih =>
    obtain ⟨k1, v1⟩ := kv
    by_cases h : k1 = k
    · subst h
      simp [setField, lookupField]
    · simp [setField, lookupField, h, ih]

lemma lookup_setField_other (fs : List (Str × Json)) {k k' : Str} (v : Json)
    (h : k' ≠ k) : lookupField (setField fs k v) k' = lookupField fs k' := by
  have hks : k ≠ k' := Ne.symm h
  induction fs with
  | nil => simp [setField, lookupField, hks]
  | cons kv rest ih =>
    obtain ⟨k1, v1⟩ := kv
    by_cases h1 : k1 = k
    · subst h1
      simp [setField, lookupField, hks]
    · by_cases h2 : k1 = k'
      · subst h2
        simp [setField, lookupField, h1]
      · simp [setField, lookupField, h1, h2, ih]

/-- C1: for every dispatched task whose agent run fails, after the
attempts counter was incremented at dispatch (`dispatchMeta` returned
the updated meta `m2` holding `attempts = n`): if `n < 3` the settled
meta has `status = "queued"` and the task is moved to the Queue column;
if `n = 3` it has `status = "failed"` and the task is moved to the
Review column. -/
theorem c1_retry_policy (d : Str) (agent : Json) (now : Str) (m2 : Json)
    (hdisp : dispatchMeta d agent now = some m2)
    (r : AgentResult) (hfail : r.success = false)
    (summary resultPath : Str) (n : Int)
    (hat : m2.getField (str "attempts") = some (Json.num n)) :
    (n < 3 →
      (settleTask m2 r summary resultPath).1.getField (str "status") =
          some (Json.str (str "queued")) ∧
        (settleTask m2 r summary resultPath).2 = ColTarget.queue) ∧
    (n = 3 →
      (settleTask m2 r summary resultPath).1.getField (str "status") =
          some (Json.str (str "failed")) ∧
        (settleTask m2 r summary resultPath).2 = ColTarget.review) := by
  cases m2 with
  | obj fs =>
    rw [Json.getField] at hat
    have hlook : ∀ v1 v2 v3 v4, lookupField
        (setField (setField (setField (setField fs (str "status") v1)
          (str "resultPath") v2) (str "lastError") v3) (str "resultSummary") v4)
        (str "attempts") = some (Json.num n) := by
      intro v1 v2 v3 v4
      rw [lookup_setField_other _ _ (by decide), lookup_setField_other _ _ (by decide),
        lookup_setField_other _ _ (by decide), lookup_setField_other _ _ (by decide), hat]
    constructor
    · intro hn
      simp only [settleTask, hfail, Bool.false_eq_true, if_false, Json.setF,
        attemptsLt, Json.getField, hlook, MAX_ATTEMPTS]
      rw [if_pos (by simpa using hn)]
      refine ⟨?_, rfl⟩
      simp only [Json.setF, Json.getField]
      exact lookup_setField_same _ _ _
    · intro hn
      simp only [settleTask, hfail, Bool.false_eq_true, if_false, Json.setF,
        attemptsLt, Json.getField, hlook, MAX_ATTEMPTS]
      rw [if_neg (by simp [hn])]
      refine ⟨?_, rfl⟩
      simp only [Json.getField]
      rw [lookup_setField_other _ _ (by decide), lookup_setField_other _ _ (by decide),
        lookup_setField_other _ _ (by decide), lookup_setField_same]
  | null => simp [Json.getField] at hat
  | bool b => simp [Json.getField] at hat
  | num k => simp [Json.getField] at hat
  | str s => simp [Json.getField] at hat
  | arr es => simp [Json.getField] at hat

/-- C1 witness: an empty description dispatches with `attempts = 1`; a
failing run then settles with `status = "queued"` in the Queue column. -/
theorem c1_retry_policy_witness :
    dispatchMeta [] (Json.str (str "claude")) (str "t0") =
      some (Json.obj [(str "agent", Json.str (str "claude")),
        (str "status", Json.str (str "running")), (str "attempts", Json.num 1),
        (str "startedAt", Json.str (str "t0")), (str "resultPath", Json.null),
        (str "lastError", Json.null)]) ∧
    (settleTask
        (Json.obj [(str "agent", Json.str (str "claude")),
          (str "status", Json.str (str "running")), (str "attempts", Json.num 1),
          (str "startedAt", Json.str (str "t0")), (str "resultPath", Json.null),
          (str "lastError", Json.null)])
        { success := false, stdout := [], stderr := str "boom", exitCode := 1,
          durationMs := 5, timedOut := false }
        (str "s") (str "p")).1.getField (str "status") =
      some (Json.str (str "queued")) ∧
    (settleTask
        (Json.obj [(str "agent", Json.str (str "claude")),
          (str "status", Json.str (str "running")), (str "attempts", Json.num 1),
          (str "startedAt", Json.str (str "t0")), (str "resultPath", Json.null),
          (str "lastError", Json.null)])
        { success := false, stdout := [], stderr := str "boom", exitCode := 1,
          durationMs := 5, timedOut := false }
        (str "s") (str "p")).2 = ColTarget.queue := by
  refine ⟨rfl, ?_⟩
  exact (c1_retry_policy [] (Json.str (str "claude")) (str "t0") _ rfl
    { success := false, stdout := [], stderr := str "boom", exitCode := 1,
      durationMs := 5, timedOut := false }
    rfl (str "s") (str "p") 1 rfl).1 (by decide)

/-- C10: when the embedded meta names a (truthy) agent id, the router
returns that id for every registry whatsoever — no existence or enabled
check; if the id is then absent from the registry, or resolves to a
disabled registry entry, `spawnAgent` resolves immediately (no process
is spawned: the validation prologue returns the result) with
`success = false`, `exitCode = 1` and an explanatory stderr string; and
the dispatch that precedes the spawn still increments the attempts
counter, so the doomed run consumes one of the task's 3 attempts. -/
theorem c10_meta_override (cfg : List Agent) (task : BoardTask) (a : Str) (m : Json)
    (hm : parseAgentMeta task.descText = some m) (hmt : m.truthy = true)
    (hagent : m.getField (str "agent") = some (Json.str a)) (ha : a ≠ [])
    (now : Str) (n : Int) (hn : getAttempts m = some n) :
    routeToAgent cfg task = Json.str a ∧
    ((∀ ag ∈ cfg, ag.id ≠ a) →
      spawnAgentCheck cfg (Json.str a) = some
        { success := false
          stdout := []
          stderr := str "Unknown agent: " ++ a ++ str " (not found in agents.json)"
          exitCode := 1
          durationMs := 0
          timedOut := false }) ∧
    (∀ ag, cfg.find? (fun g => jsonIsStr (Json.str a) g.id) = some ag →
      ag.enabled = false →
      spawnAgentCheck cfg (Json.str a) = some
        { success := false
          stdout := []
          stderr := str "Agent " ++ ag.id ++ str " is disabled: " ++
            (match ag.note with
             | some nt => if nt = [] then str "no reason given" else nt
             | none => str "no reason given")
          exitCode := 1
          durationMs := 0
          timedOut := false }) ∧
    ∃ m2, dispatchMeta task.descText (Json.str a) now = some m2 ∧
      m2.getField (str "attempts") = some (Json.num (n + 1)) ∧
      m2.getField (str "status") = some (Json.str (str "running")) := by
  obtain ⟨fs, rfl⟩ : ∃ fs, m = Json.obj fs := by
    cases m with
    | obj fs => exact ⟨fs, rfl⟩
    | null => simp [Json.getField] at hagent
    | bool b => simp [Json.getField] at hagent
    | num k => simp [Json.getField] at hagent
    | str s => simp [Json.getField] at hagent
    | arr es => simp [Json.getField] at hagent
  refine ⟨?_, ?_, ?_, ?_⟩
  · rw [routeToAgent, hm]
    simp only [hmt, if_true, hagent]
    rw [if_pos (by simp [Json.truthy, ha])]
  · intro hnotfound
    rw [spawnAgentCheck]
    have hfind : cfg.find? (fun ag => jsonIsStr (Json.str a) ag.id) = none := by
      rw [List.find?_eq_none]
      intro ag hag
      simp [jsonIsStr]
      exact fun e => hnotfound ag hag e.symm
    rw [hfind]
  · intro ag hfind hdis
    rw [spawnAgentCheck, hfind]
    simp [hdis]
  · refine ⟨(((((Json.obj fs).setF (str "agent") (Json.str a)).setF (str "status")
        (Json.str (str "running"))).setF (str "attempts") (Json.num (n + 1))).setF
        (str "startedAt") (Json.str now)), ?_, ?_, ?_⟩
    · rw [dispatchMeta, metaOf, hm]
      simp only [hmt, if_true, hn, Option.map_some']
    · simp only [Json.setF, Json.getField]
      rw [lookup_setField_other _ _ (by decide), lookup_setField_same]
    · simp only [Json.setF, Json.getField]
      rw [lookup_setField_other _ _ (by decide),
        lookup_setField_other _ _ (by decide), lookup_setField_same]

/-- C10 witness: a task whose description embeds `agent: "ghost"` is
routed to `ghost` both against the empty registry (unknown agent) and
against a registry whose only entry `ghost` is disabled; in either case
the spawn check fails it with exit code 1 and no spawn, and the
dispatch still bumps attempts to 1. -/
theorem c10_meta_override_witness :
    routeToAgent []
      { id := str "t1", title := some (str "T"),
        description := some (setAgentMeta (str "do it")
          (Json.obj [(str "agent", Json.str (str "ghost"))])),
        desc := none, color := none } = Json.str (str "ghost") ∧
    spawnAgentCheck [] (Json.str (str "ghost")) = some
      { success := false
        stdout := []
        stderr := str "Unknown agent: " ++ str "ghost" ++ str " (not found in agents.json)"
        exitCode := 1
        durationMs := 0
        timedOut := false } ∧
    routeToAgent [⟨str "ghost", str "run", [], none, none, false, false, some (str "broken")⟩]
      { id := str "t1", title := some (str "T"),
        description := some (setAgentMeta (str "do it")
          (Json.obj [(str "agent", Json.str (str "ghost"))])),
        desc := none, color := none } = Json.str (str "ghost") ∧
    spawnAgentCheck [⟨str "ghost", str "run", [], none, none, false, false, some (str "broken")⟩]
      (Json.str (str "ghost")) = some
      { success := false
        stdout := []
        stderr := str "Agent " ++ str "ghost" ++ str " is disabled: " ++ str "broken"
        exitCode := 1
        durationMs := 0
        timedOut := false } ∧
    ∃ m2, dispatchMeta
        (BoardTask.descText
          { id := str "t1", title := some (str "T"),
            description := some (setAgentMeta (str "do it")
              (Json.obj [(str "agent", Json.str (str "ghost"))])),
            desc := none, color := none })
        (Json.str (str "ghost")) (str "t0") = some m2 ∧
      m2.getField (str "attempts") = some (Json.num (0 + 1)) ∧
      m2.getField (str "status") = some (Json.str (str "running")) := by
  have hu := c10_meta_override []
    { id := str "t1", title := some (str "T"),
      description := some (setAgentMeta (str "do it")
        (Json.obj [(str "agent", Json.str (str "ghost"))])),
      desc := none, color := none }
    (str "ghost") (Json.obj [(str "agent", Json.str (str "ghost"))])
    (by rfl) (by rfl) (by rfl) (by decide) (str "t0") 0 (by rfl)
  have hd := c10_meta_override
    [⟨str "ghost", str "run", [], none, none, false, false, some (str "broken")⟩]
    { id := str "t1", title := some (str "T"),
      description := some (setAgentMeta (str "do it")
        (Json.obj [(str "agent", Json.str (str "ghost"))])),
      desc := none, color := none }
    (str "ghost") (Json.obj [(str "agent", Json.str (str "ghost"))])
    (by rfl) (by rfl) (by rfl) (by decide) (str "t0") 0 (by rfl)
  refine ⟨hu.1, hu.2.1 (by intro ag hag; cases hag), hd.1, ?_, hd.2.2.2⟩
  exact hd.2.2.1
    ⟨str "ghost", str "run", [], none, none, false, false, some (str "broken")⟩
    (by rfl) (by rfl)

/-- C4 counterexample: against a server that rejects the authorized
request with 401 but accepts the anonymous one, the Task Runner's client
surfaces the 401 instead of retrying — while the Spec Generator's
`kanbanFetch` retries and succeeds.  The claim, which asserts the
retry-without-auth behaviour "for both board clients", is false. -/
theorem c4_counterexample :
    trKanbanRequest true
        (fun withAuth => if withAuth then ⟨401, Json.null⟩ else ⟨200, Json.str (str "ok")⟩) =
      Except.error 401 ∧
    respOk ((fun withAuth =>
        if withAuth then (⟨401, Json.null⟩ : HttpResponse)
        else ⟨200, Json.str (str "ok")⟩) false) = true ∧
    kanbanFetch true
        (fun withAuth => if withAuth then ⟨401, Json.null⟩ else ⟨200, Json.str (str "ok")⟩) =
      Except.ok (Json.str (str "ok")) :=
  ⟨rfl, rfl, rfl⟩

/-- C4 amended: only the Spec Generator's `kanbanFetch` retries once
without the Authorization header on a 401-with-token and surfaces an
error only if that retry also fails; the Task Runner's
`kanbanGet`/`kanbanPut`/`kanbanPost` never retry — any non-2xx response,
401 included, surfaces as an error. -/
theorem c4_retry_behaviour (server : Bool → HttpResponse) :
    ((server true).status = 401 → respOk (server false) = true →
      kanbanFetch true server = Except.ok (server false).body) ∧
    ((server true).status = 401 → respOk (server false) = false →
      kanbanFetch true server = Except.error (server false).status) ∧
    (∀ hasToken, respOk (server hasToken) = false →
      trKanbanRequest hasToken server = Except.error (server hasToken).status) ∧
    (∀ hasToken, respOk (server hasToken) = true →
      trKanbanRequest hasToken server = Except.ok (server hasToken).body) := by
  refine ⟨?_, ?_, ?_, ?_⟩
  · intro h401 hok
    rw [kanbanFetch, if_pos (by simp [h401]), if_neg (by simp [hok])]
  · intro h401 hko
    rw [kanbanFetch, if_pos (by simp [h401]), if_pos (by simp [hko])]
  · intro hasToken hko
    rw [trKanbanRequest, if_pos (by simp [hko])]
  · intro hasToken hok
    rw [trKanbanRequest, if_neg (by simp [hok])]

/-- C4 amended, witness: the behaviours instantiated at the
401-then-200 server. -/
theorem c4_retry_behaviour_witness :
    kanbanFetch true
        (fun withAuth => if withAuth then ⟨401, Json.null⟩ else ⟨200, Json.str (str "ok")⟩) =
      Except.ok (Json.str (str "ok")) ∧
    trKanbanRequest true
        (fun withAuth => if withAuth then ⟨401, Json.null⟩ else ⟨200, Json.str (str "ok")⟩) =
      Except.error 401 :=
  ⟨(c4_retry_behaviour _).1 rfl rfl,
    (c4_retry_behaviour
      (fun withAuth => if withAuth then ⟨401, Json.null⟩
        else ⟨200, Json.str (str "ok")⟩)).2.2.1 true rfl⟩

/-- C5: if the primary key is configured the primary runs first and a
success is returned as `{text, usage, provider}`; on any primary failure
the fallback function is invoked exactly once and its result — success
or error — is what the caller sees; without a primary key only the
fallback runs; a fallback success is likewise a full result record. -/
theorem c5_fallback_chain (g o : ProviderOutcome) (oKey : Bool) :
    (∀ text tokens, g = .ok text tokens →
      callLLM true oKey g o =
        (.ok ⟨text, tokens, str "gemini-2.5-flash"⟩, [.gemini])) ∧
    ((∀ text tokens, g ≠ .ok text tokens) →
      (callLLM true oKey g o).2 = [.gemini, .openrouter] ∧
      (callLLM true oKey g o).1 = callOpenRouter oKey o) ∧
    (callLLM false oKey g o = (callOpenRouter oKey o, [.openrouter])) ∧
    (∀ text tokens, o = .ok text tokens →
      callOpenRouter true o = .ok ⟨text, tokens, str "qwen3-235b (OpenRouter)"⟩) := by
  refine ⟨?_, ?_, ?_, ?_⟩
  · intro text tokens hg
    subst hg
    rfl
  · intro hg
    cases g with
    | ok text tokens => exact absurd rfl (hg text tokens)
    | rateLimited =>
      constructor
      · rw [callLLM]
        simp only [if_true]
        rw [show callGemini true ProviderOutcome.rateLimited =
          Except.error (str "Gemini rate limited") from rfl]
        cases h : callOpenRouter oKey o <;> simp
      · rw [callLLM]
        simp only [if_true]
        rw [show callGemini true ProviderOutcome.rateLimited =
          Except.error (str "Gemini rate limited") from rfl]
        cases h : callOpenRouter oKey o <;> simp
    | httpError status body =>
      constructor
      · rw [callLLM]
        simp only [if_true]
        rw [show callGemini true (ProviderOutcome.httpError status body) =
          Except.error (str "Gemini API " ++ natToDigits status ++ str ": " ++
            body.take 200) from rfl]
        cases h : callOpenRouter oKey o <;> simp
      · rw [callLLM]
        simp only [if_true]
        rw [show callGemini true (ProviderOutcome.httpError status body) =
          Except.error (str "Gemini API " ++ natToDigits status ++ str ": " ++
            body.take 200) from rfl]
        cases h : callOpenRouter oKey o <;> simp
    | netError msg =>
      constructor
      · rw [callLLM]
        simp only [if_true]
        rw [show callGemini true (ProviderOutcome.netError msg) =
          Except.error msg from rfl]
        cases h : callOpenRouter oKey o <;> simp
      · rw [callLLM]
        simp only [if_true]
        rw [show callGemini true (ProviderOutcome.netError msg) =
          Except.error msg from rfl]
        cases h : callOpenRouter oKey o <;> simp
  · cases h : callOpenRouter oKey o <;> simp [callLLM, h]
  · intro text tokens ho
    subst ho
    rfl

/-- C5 witness: a rate-limited primary falls back exactly once and the
fallback's success becomes the returned record. -/
theorem c5_fallback_chain_witness :
    (callLLM true true ProviderOutcome.rateLimited
        (ProviderOutcome.ok (str "hi") Json.null)).2 = [.gemini, .openrouter] ∧
    (callLLM true true ProviderOutcome.rateLimited
        (ProviderOutcome.ok (str "hi") Json.null)).1 =
      Except.ok ⟨str "hi", Json.null, str "qwen3-235b (OpenRouter)"⟩ := by
  have h := (c5_fallback_chain ProviderOutcome.rateLimited
    (ProviderOutcome.ok (str "hi") Json.null) true).2.1
    (fun text tokens h => ProviderOutcome.noConfusion h)
  exact ⟨h.1, by rw [h.2]; rfl⟩

theorem captureFoldl_flatten (chunks : List Str) (acc : Str)
    (h : acc.length + sumLen chunks ≤ MAX_STDOUT) :
    chunks.foldl captureStep acc = acc ++ chunks.flatten := by
  induction chunks generalizing acc with
  | nil => simp
  | cons c cs ih =>
    have hsum : acc.length + (c.length + sumLen cs) ≤ MAX_STDOUT := by
      simpa [sumLen] using h
    simp only [List.foldl_cons, captureStep]
    by_cases hlt : acc.length < MAX_STDOUT
    · rw [if_pos hlt, ih (acc ++ c) (by simp only [List.length_append]; omega)]
      simp
    · have hc : c = [] := List.length_eq_zero.mp (by omega)
      rw [if_neg hlt, ih acc (by omega), hc]
      simp

theorem captureFoldl_length_le (chunks : List Str) (acc : Str) :
    (chunks.foldl captureStep acc).length ≤
      max acc.length (MAX_STDOUT + maxChunkLen chunks) := by
  induction chunks generalizing acc with
  | nil =>
    simp only [List.foldl_nil]
    exact Nat.le_max_left _ _
  | cons c cs ih =>
    have hm1 : c.length ≤ maxChunkLen (c :: cs) := by
      simp only [maxChunkLen, List.foldr_cons]
      exact Nat.le_max_left _ _
    have hm2 : maxChunkLen cs ≤ maxChunkLen (c :: cs) := by
      simp only [maxChunkLen, List.foldr_cons]
      exact Nat.le_max_right _ _
    simp only [List.foldl_cons, captureStep]
    by_cases hlt : acc.length < MAX_STDOUT
    · rw [if_pos hlt]
      refine le_trans (ih (acc ++ c)) (max_le ?_ ?_)
      · refine le_trans ?_ (Nat.le_max_right _ _)
        simp only [List.length_append]
        omega
      · refine le_trans ?_ (Nat.le_max_right _ _)
        omega
    · rw [if_neg hlt]
      refine le_trans (ih acc) (max_le (Nat.le_max_left _ _) ?_)
      refine le_trans ?_ (Nat.le_max_right _ _)
      omega

/-- C6 counterexample: a single stdout chunk one byte over the limit is
appended in full, so the captured stdout exceeds 10 MiB — the claim's
"captures at most 10 MiB" is false at this input. -/
theorem c6_counterexample :
    MAX_STDOUT < (captureStream [List.replicate (MAX_STDOUT + 1) 'a']).length := by
  rw [captureStream, List.foldl_cons, List.foldl_nil, captureStep]
  rw [if_pos (by simp [MAX_STDOUT])]
  simp

/-- C6 amended: the capture check runs per chunk *before* appending, so
output whose total length is at most 10 MiB (in particular exactly
10 MiB) is captured in full, and the captured length never exceeds
10 MiB plus one chunk (further chunks are dropped silently); the exit
code and timeout flag are still reported alongside the captures. -/
theorem c6_capture_bounds (chunks outChunks errChunks : List Str) (code : Int)
    (killed : Bool) (d : Nat) :
    (sumLen chunks ≤ MAX_STDOUT → captureStream chunks = chunks.flatten) ∧
    (captureStream chunks).length ≤ MAX_STDOUT + maxChunkLen chunks ∧
    (spawnOutcome outChunks errChunks code killed d).exitCode = code ∧
    (spawnOutcome outChunks errChunks code killed d).timedOut = killed ∧
    (spawnOutcome outChunks errChunks code killed d).stdout = captureStream outChunks ∧
    (spawnOutcome outChunks errChunks code killed d).stderr = captureStream errChunks := by
  refine ⟨?_, ?_, rfl, rfl, rfl, rfl⟩
  · intro h
    simpa using captureFoldl_flatten chunks [] (by simpa using h)
  · simpa using captureFoldl_length_le chunks []

/-- C6 amended, witness: a 4-byte stream is captured in full and within
the bound. -/
theorem c6_capture_bounds_witness :
    captureStream [str "ab", str "cd"] = str "abcd" ∧
    (captureStream [str "ab", str "cd"]).length ≤
      MAX_STDOUT + maxChunkLen [str "ab", str "cd"] := by
  have h := c6_capture_bounds [str "ab", str "cd"] [] [] 0 false 0
  exact ⟨by rw [h.1 (by decide)]; rfl, h.2.1⟩

/-- C9: the persisted board keeps the incoming columns and initiatives
as sent; its backlog does not depend on the incoming backlog at all, it
is the stored backlog when one is stored (and truthy), and the empty
list when none is stored. -/
theorem c9_backlog_preserved (incoming current : Board) :
    (boardPost incoming current).columns = incoming.columns ∧
    (boardPost incoming current).initiatives = incoming.initiatives ∧
    (∀ b1 b2 : Option Json,
      (boardPost { incoming with backlog := b1 } current).backlog =
        (boardPost { incoming with backlog := b2 } current).backlog) ∧
    (∀ b : Json, current.backlog = some b → b.truthy = true →
      (boardPost incoming current).backlog = some b) ∧
    (current.backlog = none →
      (boardPost incoming current).backlog = some (Json.arr [])) := by
  refine ⟨rfl, rfl, fun b1 b2 => rfl, ?_, ?_⟩
  · intro b hb ht
    simp [boardPost, hb, ht]
  · intro hb
    simp [boardPost, hb]

/-- C9 witness: at a concrete incoming board carrying its own backlog
and a stored board with a one-element backlog, the stored backlog wins. -/
theorem c9_backlog_preserved_witness :
    (boardPost
        ⟨Json.arr [Json.str (str "col")], Json.arr [], some (Json.str (str "evil"))⟩
        ⟨Json.arr [], Json.arr [], some (Json.arr [Json.num 7])⟩).backlog =
      some (Json.arr [Json.num 7]) :=
  (c9_backlog_preserved
      ⟨Json.arr [Json.str (str "col")], Json.arr [], some (Json.str (str "evil"))⟩
      ⟨Json.arr [], Json.arr [], some (Json.arr [Json.num 7])⟩).2.2.2.1
    (Json.arr [Json.num 7]) rfl rfl

lemma setScore_not_mem (m : List (Str × Nat)) (key : Str) (v : Nat)
    (h : ∀ p ∈ m, p.1 ≠ key) : setScore m key v = m ++ [(key, v)] := by
  induction m with
  | nil => rfl
  | cons p rest ih =>
    obtain ⟨k, w⟩ := p
    have hk : k ≠ key := h (k, w) (List.mem_cons_self _ _)
    simp only [setScore, if_neg hk]
    rw [ih (fun q hq => h q (List.mem_cons_of_mem _ hq))]
    simp

lemma pickBest_snd (l : List (Str × Nat)) (e : Str × Nat) :
    (pickBest e l).2 = maxSnd (e :: l) := by
  induction l generalizing e with
  | nil => simp [pickBest, maxSnd]
  | cons e2 rest ih =>
    rw [pickBest, ih]
    simp only [maxSnd, List.foldr_cons]
    by_cases h : e2.2 > e.2
    · rw [if_pos h]
      omega
    · rw [if_neg h]
      omega

lemma pickBest_firstMax (e : Str × Nat) (l : List (Str × Nat)) :
    firstMax (e :: l) = some (pickBest e l) := by
  induction l generalizing e with
  | nil =>
    simp [firstMax, maxSnd, pickBest, List.find?]
  | cons e2 rest ih =>
    simp only [firstMax] at ih ⊢
    by_cases h : e2.2 > e.2
    · rw [pickBest, if_pos h, ← ih e2]
      have hM : maxSnd (e2 :: rest) = maxSnd (e :: e2 :: rest) := by
        simp only [maxSnd, List.foldr_cons]
        omega
      simp only [hM]
      have hne : (e.2 == maxSnd (e :: e2 :: rest)) = false := by
        have : e.2 ≠ maxSnd (e :: e2 :: rest) := by
          simp only [maxSnd, List.foldr_cons]
          omega
        simpa using this
      rw [List.find?_cons_of_neg _ (by simp [hne])]
    · rw [pickBest, if_neg h, ← ih e]
      have hM : maxSnd (e :: rest) = maxSnd (e :: e2 :: rest) := by
        simp only [maxSnd, List.foldr_cons]
        omega
      simp only [hM]
      by_cases hme : e.2 = maxSnd (e :: e2 :: rest)
      · rw [List.find?_cons_of_pos _ (by simpa using hme),
          List.find?_cons_of_pos _ (by simpa using hme)]
      · have hle : e.2 ≤ maxSnd (e :: e2 :: rest) := by
          simp only [maxSnd, List.foldr_cons]
          omega
        have hme2 : ¬e2.2 = maxSnd (e :: e2 :: rest) := by
          omega
        rw [List.find?_cons_of_neg _ (by simpa using hme),
          List.find?_cons_of_neg _ (by simpa using hme2),
          List.find?_cons_of_neg _ (by simpa using hme)]

lemma scoresFold_eq (text : Str) (L : List Agent) (acc : List (Str × Nat))
    (hfresh : ∀ a ∈ L, ∀ p ∈ acc, p.1 ≠ a.id)
    (hnd : (L.map Agent.id).Nodup) :
    L.foldl
      (fun m a =>
        if 0 < scoreAgent text (a.keywords.getD []) then
          setScore m a.id (scoreAgent text (a.keywords.getD []))
        else m)
      acc =
    acc ++
      (L.filter (fun a => decide (0 < scoreAgent text (a.keywords.getD [])))).map
        (fun a => (a.id, scoreAgent text (a.keywords.getD []))) := by
  induction L generalizing acc with
  | nil => simp
  | cons a as ih =>
    simp only [List.map_cons, List.nodup_cons] at hnd
    simp only [List.foldl_cons]
    by_cases hpos : 0 < scoreAgent text (a.keywords.getD [])
    · rw [if_pos hpos,
        setScore_not_mem _ _ _ (fun p hp => hfresh a (List.mem_cons_self a as) p hp)]
      rw [ih (acc ++ [(a.id, scoreAgent text (a.keywords.getD []))]) ?_ hnd.2]
      · simp [List.filter_cons, hpos]
      · intro b hb p hp
        rcases List.mem_append.mp hp with hp | hp
        · exact hfresh b (List.mem_cons_of_mem a hb) p hp
        · have hpe : p = (a.id, scoreAgent text (a.keywords.getD [])) := by
            simpa using hp
          subst hpe
          show a.id ≠ b.id
          intro hcon
          exact hnd.1 (hcon ▸ List.mem_map_of_mem Agent.id hb)
    · rw [if_neg hpos,
        ih acc (fun b hb => hfresh b (List.mem_cons_of_mem a hb)) hnd.2]
      simp [List.filter_cons, hpos]

lemma scoresOf_eq (text : Str) (cfg : List Agent)
    (hnd : ((enabledKeywordAgents cfg).map Agent.id).Nodup) :
    scoresOf text cfg =
      ((enabledKeywordAgents cfg).filter
          (fun a => decide (0 < scoreAgent text (a.keywords.getD [])))).map
        (fun a => (a.id, scoreAgent text (a.keywords.getD []))) := by
  have h := scoresFold_eq text (enabledKeywordAgents cfg) [] (by simp) hnd
  simpa [scoresOf] using h

/-- C7 counterexample: the code lowercases the searchable text but
matches the registry keywords verbatim, so the capitalized keyword
`Test` never matches even though the task title is `Test this`; the
router falls through to the default agent `b`, while the claim's
case-insensitive scoring gives agent `a` the unique positive score. -/
theorem c7_counterexample :
    routeToAgent c7cfgCex c7taskCex = Json.str (str "b") ∧
    scoreAgent (BoardTask.searchText c7taskCex) [str "Test"] = 0 ∧
    ciScoreAgent (BoardTask.searchText c7taskCex) [str "Test"] = 1 ∧
    ciScoreAgent (BoardTask.searchText c7taskCex) [str "zzz"] = 0 :=
  ⟨rfl, rfl, rfl, rfl⟩

/-- C7 amended: a truthy embedded `agent` value is returned unchecked;
otherwise, provided the enabled keyword agents carry distinct ids, the
scores object lists exactly the enabled keyword agents whose keywords
occur *verbatim* in the lowercased title-plus-description, in registry
order with their scores; when that list is nonempty the router returns
the first entry attaining the maximal score, and when it is empty it
returns the enabled default agent, else the first enabled agent, else
the hard-coded `gemini`. -/
theorem c7_routing (cfg : List Agent) (task : BoardTask)
    (hnd : ((enabledKeywordAgents cfg).map Agent.id).Nodup) :
    (∀ meta v, parseAgentMeta task.descText = some meta → meta.truthy = true →
      meta.getField (str "agent") = some v → v.truthy = true →
      routeToAgent cfg task = v) ∧
    (parseAgentMeta task.descText = none →
      (scoresOf task.searchText cfg =
        ((enabledKeywordAgents cfg).filter
            (fun a => decide (0 < scoreAgent task.searchText (a.keywords.getD [])))).map
          (fun a => (a.id, scoreAgent task.searchText (a.keywords.getD [])))) ∧
      (∀ e rest, scoresOf task.searchText cfg = e :: rest →
        ∃ p, firstMax (e :: rest) = some p ∧ routeToAgent cfg task = Json.str p.1) ∧
      (scoresOf task.searchText cfg = [] →
        routeToAgent cfg task =
          (match cfg.find? (fun a => a.enabled && a.default) with
           | some a => Json.str a.id
           | none =>
             match cfg.find? (fun a => a.enabled) with
             | some a => Json.str a.id
             | none => Json.str (str "gemini")))) := by
  refine ⟨?_, ?_⟩
  · intro meta v h1 h2 h3 h4
    simp [routeToAgent, h1, h2, h3, h4]
  · intro hmeta
    refine ⟨scoresOf_eq _ _ hnd, ?_, ?_⟩
    · intro e rest hs
      refine ⟨pickBest e rest, pickBest_firstMax e rest, ?_⟩
      simp [routeToAgent, hmeta, routeByKeywords, hs]
    · intro hs
      simp only [routeToAgent, hmeta, routeByKeywords, hs]

/-- C7 amended, witness: with two enabled agents whose single keywords
both occur in `fix bug`, the scores tie at 1 and the first registry
entry `alpha` wins. -/
theorem c7_routing_witness :
    routeToAgent c7cfg2 c7task2 = Json.str (str "alpha") := by
  have h := ((c7_routing c7cfg2 c7task2 (by decide)).2 rfl).2.1
    (str "alpha", 1) [(str "beta", 1)] rfl
  obtain ⟨p, hp1, hp2⟩ := h
  have hpv : p = (str "alpha", 1) := by
    have : firstMax [(str "alpha", 1), (str "beta", 1)] = some (str "alpha", 1) := rfl
    rw [this] at hp1
    exact (Option.some.inj hp1).symm
  rw [hp2, hpv]

/-- C8 counterexample: the input decodes to an object whose `tasks` key
is present (with value `null`), yet the extractor does not return that
object — the falsy `tasks` is overwritten with `[]`.  The claim's
"defaulted ... when the tasks key is missing" misses this case. -/
theorem c8_counterexample :
    Json.parse c8in =
      some (Json.obj [(str "spec", Json.str (str "x")), (str "tasks", Json.null)]) ∧
    extractJSON c8in =
      some (Json.obj [(str "spec", Json.str (str "x")), (str "tasks", Json.arr [])]) :=
  ⟨rfl, rfl⟩

/-- C8 amended: when the cleaned-up input decodes directly to an object
with a `spec` key, the extractor returns that object with its `tasks`
property replaced by `[]` whenever `tasks` is missing **or JS-falsy**
(and kept as-is when truthy); all other properties are untouched. -/
theorem c8_direct_parse (s : Str) (fs : List (Str × Json))
    (hp : Json.parse (cleanupText s) = some (Json.obj fs))
    (hs : (lookupField fs (str "spec")).isSome = true) :
    extractJSON s = some (Json.obj (defaultTasksField fs)) ∧
    (lookupField fs (str "tasks") = none →
      lookupField (defaultTasksField fs) (str "tasks") = some (Json.arr [])) ∧
    (∀ v, lookupField fs (str "tasks") = some v → v.truthy = true →
      defaultTasksField fs = fs) ∧
    (∀ v, lookupField fs (str "tasks") = some v → v.truthy = false →
      lookupField (defaultTasksField fs) (str "tasks") = some (Json.arr [])) ∧
    (∀ k, k ≠ str "tasks" →
      lookupField (defaultTasksField fs) k = lookupField fs k) := by
  refine ⟨?_, ?_, ?_, ?_, ?_⟩
  · simp [extractJSON, hp, hs]
  · intro h
    rw [defaultTasksField, h]
    exact lookup_setField_same _ _ _
  · intro v hv ht
    rw [defaultTasksField, hv]
    simp [ht]
  · intro v hv ht
    rw [defaultTasksField, hv]
    simp only [ht, if_false]
    exact lookup_setField_same _ _ _
  · intro k hk
    rw [defaultTasksField]
    cases hv : lookupField fs (str "tasks") with
    | none => exact lookup_setField_other _ _ hk
    | some v =>
      by_cases ht : v.truthy
      · simp [ht]
      · simp only [ht, if_false]
        exact lookup_setField_other _ _ hk

/-- C8 amended, witness: end-to-end scenario 4 — the fenced model
output is unfenced, decodes directly, and `tasks` (truthy) is kept. -/
theorem c8_direct_parse_witness :
    extractJSON sc4txt =
      some (Json.obj [(str "spec", Json.str (str "# X")),
        (str "tasks", Json.arr [Json.obj [(str "title", Json.str (str "T")),
          (str "details", Json.str (str "D"))]])]) := by
  have h := c8_direct_parse sc4txt
    [(str "spec", Json.str (str "# X")),
     (str "tasks", Json.arr [Json.obj [(str "title", Json.str (str "T")),
       (str "details", Json.str (str "D"))]])]
    rfl rfl
  rw [h.1]
  rfl
